import Mathlib

/-!
# examples/idle/idle.cpp : the idle / decode latency sweep

A shallow embedding of `main` of `src/examples/idle/idle.cpp`.

* The external engine (`llama_*`) and the clock are an `Engine`: a record of the answers the
  library gives (does the model load, is the context created, the status returned by the k-th
  `llama_decode`, the value returned by the k-th `llama_time_us`).
* A run is explicit state passing over `State`: the ordered list of calls and outputs made so far
  (`Event`: every call to the `llama` library, every `sleep_for`, every `printf`) and the number
  of decode calls and clock reads already made.
* `double` is a type parameter `α` carrying the operations the program uses
  (`0.0`, `+`, `-`, `*`, `/`, conversion from an integer) and `sqrt` is a function parameter.
  The program is written once, over `α`.
  `α := ℝ` with `Real.sqrt` is exact arithmetic; `α := Dbl` with `Dbl.sqrt` is binary64 arithmetic
  with round-to-nearest-even, infinities and NaN.
* `n_iters` is the constant `10` of `main`; the loop body and the statistics take the trial count
  as an argument, and `main` passes `n_iters`.
* `int64_t` clock values are integers; the subtraction `t_end_us - t_start_us` is the
  mathematical one (signed overflow is undefined in C++ and excluded).
-/

set_option linter.unusedSectionVars false
set_option maxRecDepth 100000

namespace Idle

/-! ## Calls and outputs -/

/-- Calls made to the engine and to the host, and outputs written, in program order. -/
inductive Event (α : Type) where
  /-- A `printf` of a fixed text to stdout -/
  | stdout (text : String)
  /-- A `fprintf (stderr, ...)` -/
  | stderr (text : String)
  /-- The call `llama_model_default_params ()` -/
  | model_default_params
  /-- The call `llama_load_model_from_file (path, params)` with `params.n_gpu_layers` -/
  | load_model (path : String) (n_gpu_layers : Int)
  /-- The call `llama_token_bos (model)` -/
  | token_bos
  /-- The call `llama_context_default_params ()` -/
  | context_default_params
  /-- The call `llama_new_context_with_model` with `n_ctx`, `n_batch`, `no_perf` -/
  | new_context (n_ctx n_batch : Nat) (no_perf : Bool)
  /-- The call `llama_batch_get_one` over the one-token prompt -/
  | batch_get_one (n_tokens : Nat)
  /-- The call `llama_decode (ctx, batch)` together with the status it returned -/
  | decode (status : Int)
  | kv_cache_clear
  | kv_cache_update
  | synchronize
  /-- The call `std::this_thread::sleep_for (milliseconds (t))` -/
  | sleep_ms (t : Int)
  /-- The call `llama_time_us ()` together with the value it returned -/
  | time_us (t : Int)
  /-- The summary `printf`: its four arguments `n_iters`, `(int) t_pause_ms`,
  `t_avg_us / 1000`, `t_dev_us / 1000` -/
  | summary (iters : Int) (pause : Int) (avg_ms : α) (dev_ms : α)
  | fflush
  /-- The call `llama_free (ctx)` -/
  | free
  /-- The call `llama_free_model (model)` -/
  | free_model
  deriving DecidableEq, Repr

/-- Answers of the external library: `load path ngl` and `new_context` tell whether a non-NULL
handle comes back, `decode k` is the status of the k-th `llama_decode` call (k from 0, the
warm-up is call 0), `time_us k` the value of the k-th `llama_time_us` call. -/
structure Engine where
  load : String → Int → Bool
  new_context : Bool
  decode : Nat → Int
  time_us : Nat → Int

/-- Program state visible from outside: what has been called or written so far, and how many
decode calls and clock reads were made. -/
structure State (α : Type) where
  trace : List (Event α)
  n_decode : Nat
  n_time : Nat

/-- Outcome of `main`: the final state and the returned status. -/
structure Outcome (α : Type) where
  state : State α
  status : Int

/-- Start of the process: nothing called yet. -/
def State.init {α : Type} : State α := ⟨[], 0, 0⟩

/-- Record a call or an output that returns nothing the program uses. -/
def State.emit {α : Type} (s : State α) (e : Event α) : State α :=
  { s with trace := s.trace ++ [e] }

/-- Call `llama_decode (ctx, batch)`: the returned status is not used by the caller. -/
def llama_decode {α : Type} (eng : Engine) (s : State α) : State α :=
  { trace := s.trace ++ [Event.decode (eng.decode s.n_decode)]
    n_decode := s.n_decode + 1
    n_time := s.n_time }

/-- Call `llama_time_us ()`. -/
def llama_time_us {α : Type} (eng : Engine) (s : State α) : Int × State α :=
  (eng.time_us s.n_time,
   { trace := s.trace ++ [Event.time_us (eng.time_us s.n_time)]
     n_decode := s.n_decode
     n_time := s.n_time + 1 })

/-! ## Command line -/

/-- The three `printf` calls of `print_usage`. -/
def print_usage {α : Type} (argv0 : String) (s : State α) : State α :=
  ((s.emit (Event.stdout "\nexample usage:\n")).emit
    (Event.stdout ("\n    " ++ argv0 ++ " -m model.gguf [-ngl n_gpu_layers]\n"))).emit
    (Event.stdout "\n")

/-- What the argument block of `main` ends with: either usage is printed and `main` returns 1,
or parsing ends with a non-empty model path and a layer count. -/
inductive Parsed where
  | usage
  | ok (model_path : String) (ngl : Int)
  deriving DecidableEq, Repr

/-- The `for (; i < argc; i++)` loop of `main` over the arguments not yet read, from `argv[i]`
on; `stoi` is `std::stoi`, `none` when it throws. Returns `none` where the loop body runs
`print_usage; return 1`, and the values of `model_path` and `ngl` where the loop ends. -/
def parse_loop (stoi : String → Option Int) :
    List String → String → Int → Option (String × Int)
  | [], model_path, ngl => some (model_path, ngl)
  | a :: rest, model_path, ngl =>
    if a = "-m" then
      match rest with
      | v :: rest2 => parse_loop stoi rest2 v ngl
      | [] => none
    else if a = "-ngl" then
      match rest with
      | v :: rest2 =>
        match stoi v with
        | some n => parse_loop stoi rest2 model_path n
        | none => none
      | [] => none
    else
      -- prompt starts here
      some (model_path, ngl)

/-- The argument block of `main` (lines 18 to 56): `ngl` starts at 99, `model_path` empty;
`args` is `argv[1..]`. -/
def parse_args (stoi : String → Option Int) (args : List String) : Parsed :=
  match parse_loop stoi args "" 99 with
  | none => Parsed.usage
  | some (model_path, ngl) =>
    if model_path = "" then Parsed.usage else Parsed.ok model_path ngl

/-! ## Statistics of one bucket (lines 122 and 123) -/

section stats
variable {α : Type} [Zero α] [Add α] [Sub α] [Mul α] [Div α] [IntCast α]

/-- The average of line 122: `t_sum_us / n_iters`. -/
def t_avg_us (n_iters : Int) (t_sum_us : α) : α :=
  t_sum_us / (n_iters : α)

/-- The argument of `sqrt` in line 123:
`(t_sum2_us / (n_iters - 1)) - (t_avg_us * t_avg_us * n_iters) / (n_iters - 1)`. -/
def t_var_us (n_iters : Int) (t_sum2_us t_avg_us : α) : α :=
  (t_sum2_us / ((n_iters - 1 : Int) : α))
    - (t_avg_us * t_avg_us * (n_iters : α)) / ((n_iters - 1 : Int) : α)

/-- The deviation of line 123. -/
def t_dev_us (sqrt : α → α) (n_iters : Int) (t_sum2_us t_avg_us : α) : α :=
  sqrt (t_var_us n_iters t_sum2_us t_avg_us)

/-! ## The sweep (lines 83 to 127) -/

/-- Loop variables of the trial loop: the state and the two running sums. -/
structure Acc (α : Type) where
  state : State α
  t_sum_us : α
  t_sum2_us : α

/-- Body of the trial loop (lines 96 to 119). -/
def trial (eng : Engine) (t_pause_ms : Int) (a : Acc α) : Acc α :=
  let s := a.state.emit (Event.sleep_ms t_pause_ms)
  let (t_start_us, s) := llama_time_us eng s
  let s := llama_decode eng s
  let s := s.emit Event.synchronize
  let (t_end_us, s) := llama_time_us eng s
  let t_cur_us : α := ((t_end_us - t_start_us : Int) : α)
  let s := s.emit Event.kv_cache_clear
  let s := s.emit Event.kv_cache_update
  let s := s.emit Event.synchronize
  { state := s
    t_sum_us := a.t_sum_us + t_cur_us
    t_sum2_us := a.t_sum2_us + t_cur_us * t_cur_us }

/-- The loop `for (int i = ...; i < n_iters; i++)` of line 95, from the value `i` on. -/
def trial_loop (eng : Engine) (t_pause_ms : Int) (n_iters : Int) (i : Int) (a : Acc α) : Acc α :=
  if i < n_iters then trial_loop eng t_pause_ms n_iters (i + 1) (trial eng t_pause_ms a) else a
termination_by (n_iters - i).toNat
decreasing_by omega

/-- Body of the sweep loop (lines 92 to 126): one bucket and its summary line. -/
def bucket (sqrt : α → α) (eng : Engine) (n_iters : Int) (t_pause_ms : Int) (s : State α) :
    State α :=
  let a := trial_loop eng t_pause_ms n_iters 0 ⟨s, 0, 0⟩
  let avg := t_avg_us n_iters a.t_sum_us
  let dev := t_dev_us sqrt n_iters a.t_sum2_us avg
  (a.state.emit
    (Event.summary n_iters t_pause_ms (avg / ((1000 : Int) : α)) (dev / ((1000 : Int) : α)))).emit
    Event.fflush

/-- The loop `for (int64_t t_pause_ms = ...; t_pause_ms <= 2200; t_pause_ms += 200)` of
line 91, from the value `t_pause_ms` on. -/
def sweep_loop (sqrt : α → α) (eng : Engine) (n_iters : Int) (t_pause_ms : Int) (s : State α) :
    State α :=
  if t_pause_ms ≤ 2200 then
    sweep_loop sqrt eng n_iters (t_pause_ms + 200) (bucket sqrt eng n_iters t_pause_ms s)
  else s
termination_by (2400 - t_pause_ms).toNat
decreasing_by omega

/-- The constant `n_iters` of line 83. -/
def n_iters : Int := 10

/-- The warm-up of lines 85 to 89. -/
def warm_up (eng : Engine) (s : State α) : State α :=
  (((llama_decode eng s).emit Event.kv_cache_clear).emit Event.kv_cache_update).emit
    Event.synchronize

/-- The function `main`: `argv0` is `argv[0]`, `args` the arguments after it. -/
def main (sqrt : α → α) (stoi : String → Option Int) (eng : Engine)
    (argv0 : String) (args : List String) : Outcome α :=
  match parse_args stoi args with
  | Parsed.usage => ⟨print_usage argv0 State.init, 1⟩
  | Parsed.ok model_path ngl =>
    let s : State α := State.init.emit Event.model_default_params
    let s := s.emit (Event.load_model model_path ngl)
    if eng.load model_path ngl = false then
      ⟨s.emit (Event.stderr "main: error: unable to load model\n"), 1⟩
    else
      let s := s.emit Event.token_bos
      let s := s.emit Event.context_default_params
      let s := s.emit (Event.new_context 512 512 false)
      if eng.new_context = false then
        ⟨s.emit (Event.stderr "main: error: failed to create the llama_context\n"), 1⟩
      else
        let s := s.emit (Event.batch_get_one 1)
        let s := warm_up eng s
        let s := sweep_loop sqrt eng n_iters 0 s
        let s := s.emit Event.free
        let s := s.emit Event.free_model
        ⟨s, 0⟩

end stats

/-! ## The library function `std::stoi` -/

/-- The function `std::stoi (str)` in base 10: leading white space is skipped, an optional sign
and the longest run of digits are read, what follows is ignored; `none` where it throws
(`invalid_argument` without a digit, `out_of_range` outside `int`). -/
def std_stoi (str : String) : Option Int :=
  let cs := str.toList.dropWhile
    (fun c => c = ' ' ∨ c = '\t' ∨ c = '\n' ∨ c = '\x0b' ∨ c = '\x0c' ∨ c = '\r')
  let neg : Bool := cs.head? = some '-'
  let cs := if cs.head? = some '-' ∨ cs.head? = some '+' then cs.tail else cs
  let ds := cs.takeWhile Char.isDigit
  let v : Int := ds.foldl (fun acc c => 10 * acc + ((c.toNat - 48 : Nat) : Int)) 0
  let i : Int := if neg then -v else v
  if ds = [] then none
  else if i < -2147483648 ∨ 2147483647 < i then none
  else some i

/-! ## Binary64 arithmetic -/

/-- Values of a binary64 `double`: a finite value `m * 2 ^ e`, an infinity, or NaN. Results of the
operations below are in canonical form (`2 ^ 52 ≤ |m| < 2 ^ 53`, or `e = -1074` for a subnormal,
or `fin 0 0`). The sign of zero is not kept: the program never produces a negative zero. -/
inductive Dbl where
  | fin (m : Int) (e : Int)
  | inf (neg : Bool)
  | nan
  deriving DecidableEq, Repr

namespace Dbl

/-- Number of binary digits of `n`, by halving at most `fuel` times. -/
def bits : Nat → Nat → Nat
  | 0, _ => 0
  | fuel + 1, n => if n = 0 then 0 else bits fuel (n / 2) + 1

/-- Round the positive rational `a / d` to the nearest binary64 value, ties to even, with
gradual underflow and overflow to infinity; `neg` is the sign of the result. -/
def round (neg : Bool) (a d : Nat) : Dbl :=
  let e0 : Int := (bits a a : Int) - (bits d d : Int)
  let ge : Bool :=
    if 0 ≤ e0 then decide (d * 2 ^ e0.toNat ≤ a) else decide (d ≤ a * 2 ^ (-e0).toNat)
  let e : Int := if ge then e0 else e0 - 1
  let q : Int := max (e - 52) (-1074)
  let N : Nat := if q < 0 then a * 2 ^ (-q).toNat else a
  let D : Nat := if q < 0 then d else d * 2 ^ q.toNat
  let n : Nat := N / D
  let r : Nat := N % D
  let n1 : Nat := if D < 2 * r ∨ (2 * r = D ∧ n % 2 = 1) then n + 1 else n
  let (n2, q2) : Nat × Int := if n1 = 2 ^ 53 then (2 ^ 52, q + 1) else (n1, q)
  if n2 = 0 then fin 0 0
  else if 971 < q2 then inf neg
  else fin (if neg then -(n2 : Int) else (n2 : Int)) q2

/-- Round the dyadic number `m * 2 ^ e`. -/
def ofDyadic (m : Int) (e : Int) : Dbl :=
  if m = 0 then fin 0 0
  else if 0 ≤ e then round (decide (m < 0)) (m.natAbs * 2 ^ e.toNat) 1
  else round (decide (m < 0)) m.natAbs (2 ^ (-e).toNat)

/-- The sum `x + y`. -/
def add : Dbl → Dbl → Dbl
  | nan, _ => nan
  | _, nan => nan
  | inf a, inf b => if a = b then inf a else nan
  | inf a, fin _ _ => inf a
  | fin _ _, inf b => inf b
  | fin m1 e1, fin m2 e2 =>
    let e := min e1 e2
    ofDyadic (m1 * 2 ^ (e1 - e).toNat + m2 * 2 ^ (e2 - e).toNat) e

/-- The opposite `-x`. -/
def neg : Dbl → Dbl
  | nan => nan
  | inf a => inf (!a)
  | fin m e => fin (-m) e

/-- The product `x * y`. -/
def mul : Dbl → Dbl → Dbl
  | nan, _ => nan
  | _, nan => nan
  | inf a, inf b => inf (xor a b)
  | inf a, fin m _ => if m = 0 then nan else inf (xor a (decide (m < 0)))
  | fin m _, inf b => if m = 0 then nan else inf (xor (decide (m < 0)) b)
  | fin m1 e1, fin m2 e2 => ofDyadic (m1 * m2) (e1 + e2)

/-- The quotient `x / y`; a zero divisor is `+0`. -/
def div : Dbl → Dbl → Dbl
  | nan, _ => nan
  | _, nan => nan
  | inf _, inf _ => nan
  | inf a, fin m _ => inf (xor a (decide (m < 0)))
  | fin _ _, inf _ => fin 0 0
  | fin m1 e1, fin m2 e2 =>
    if m2 = 0 then (if m1 = 0 then nan else inf (decide (m1 < 0)))
    else if m1 = 0 then fin 0 0
    else round (xor (decide (m1 < 0)) (decide (m2 < 0)))
      (m1.natAbs * 2 ^ (e1 - e2).toNat) (m2.natAbs * 2 ^ (e2 - e1).toNat)

/-- The function `sqrt` of the C library, correctly rounded: NaN for a negative argument. -/
def sqrt : Dbl → Dbl
  | nan => nan
  | inf a => if a then nan else inf false
  | fin m e =>
    if m < 0 then nan
    else if m = 0 then fin 0 0
    else
      -- scale to an integer `N = m * 2 ^ k` with `e - k` even and more than 110 digits
      let k : Nat := 112 + (if (e - 112) % 2 = 0 then 0 else 1)
      let N : Nat := m.toNat * 2 ^ k
      let r : Nat := Nat.sqrt N
      let sticky : Nat := if r * r = N then 0 else 1
      ofDyadic ((2 * r + sticky : Nat) : Int) ((e - k) / 2 - 1)

instance : Zero Dbl := ⟨fin 0 0⟩
instance : Add Dbl := ⟨add⟩
instance : Sub Dbl := ⟨fun x y => add x (neg y)⟩
instance : Mul Dbl := ⟨mul⟩
instance : Div Dbl := ⟨div⟩
instance : IntCast Dbl := ⟨fun i => ofDyadic i 0⟩

/-- The rational value of a finite `double`. -/
def toRat? : Dbl → Option ℚ
  | fin m e => some ((m : ℚ) * (2 : ℚ) ^ e)
  | _ => none

end Dbl

/-! ## Reading a run -/

section reading
variable {α : Type} [Zero α] [Add α] [Sub α] [Mul α] [Div α] [IntCast α]

/-- The sample measured by the trial whose start read is clock read number `t`:
`t_end_us - t_start_us`. -/
def sample (eng : Engine) (t : Nat) : Int :=
  eng.time_us (t + 1) - eng.time_us t

/-- The samples of `k` consecutive trials, the first of which starts at clock read `t`. -/
def samples (eng : Engine) (t k : Nat) : List Int :=
  (List.range k).map (fun j => sample eng (t + 2 * j))

/-- The running sum of line 114 over a list of samples, in order. -/
def sum_of (xs : List Int) (t_sum_us : α) : α :=
  xs.foldl (fun acc (x : Int) => acc + (x : α)) t_sum_us

/-- The running sum of squares of line 115 over a list of samples, in order. -/
def sum2_of (xs : List Int) (t_sum2_us : α) : α :=
  xs.foldl (fun acc (x : Int) => acc + (x : α) * (x : α)) t_sum2_us

/-- The calls of the trial that makes decode call `d` and starts at clock read `t`. -/
def trial_events (eng : Engine) (t_pause_ms : Int) (d t : Nat) : List (Event α) :=
  [Event.sleep_ms t_pause_ms, Event.time_us (eng.time_us t), Event.decode (eng.decode d),
   Event.synchronize, Event.time_us (eng.time_us (t + 1)),
   Event.kv_cache_clear, Event.kv_cache_update, Event.synchronize]

/-- The summary line computed by lines 122 to 125 from sums that start at zero and run over
the samples `xs`. -/
def summary_of (sqrt : α → α) (n_iters : Int) (t_pause_ms : Int) (xs : List Int) : Event α :=
  Event.summary n_iters t_pause_ms
    (t_avg_us n_iters (sum_of xs (0 : α)) / ((1000 : Int) : α))
    (t_dev_us sqrt n_iters (sum2_of xs (0 : α)) (t_avg_us n_iters (sum_of xs (0 : α)))
      / ((1000 : Int) : α))

/-- The calls and outputs of the bucket whose first trial makes decode call `d` and starts at
clock read `t`. -/
def bucket_events (sqrt : α → α) (eng : Engine) (n_iters : Int) (t_pause_ms : Int) (d t : Nat) :
    List (Event α) :=
  (List.range n_iters.toNat).flatMap (fun j => trial_events eng t_pause_ms (d + j) (t + 2 * j))
    ++ [summary_of sqrt n_iters t_pause_ms (samples eng t n_iters.toNat), Event.fflush]

/-- The calls and outputs of a run of `main` that reaches the sweep. -/
def full_trace (sqrt : α → α) (eng : Engine) (model_path : String) (ngl : Int) :
    List (Event α) :=
  [Event.model_default_params, Event.load_model model_path ngl, Event.token_bos,
   Event.context_default_params, Event.new_context 512 512 false, Event.batch_get_one 1,
   Event.decode (eng.decode 0), Event.kv_cache_clear, Event.kv_cache_update, Event.synchronize]
  ++ (List.range 12).flatMap
      (fun k => bucket_events sqrt eng 10 (200 * (k : Int)) (1 + 10 * k) (20 * k))
  ++ [Event.free, Event.free_model]

/-- Whether an event is a summary line. -/
def Event.is_summary : Event α → Bool
  | Event.summary _ _ _ _ => true
  | _ => false

/-- The summary lines of a trace, in order. -/
def summaries (tr : List (Event α)) : List (Event α) :=
  tr.filter Event.is_summary

/-- What an event is, without the values it carries. -/
inductive Kind where
  | stdout | stderr | model_default_params | load_model | token_bos | context_default_params
  | new_context | batch_get_one | decode
  | kv_cache_clear | kv_cache_update | synchronize | sleep_ms | time_us | summary | fflush
  | free | free_model
  deriving DecidableEq, Repr

/-- The kind of an event. -/
def Event.kind : Event α → Kind
  | Event.stdout _ => Kind.stdout
  | Event.stderr _ => Kind.stderr
  | Event.model_default_params => Kind.model_default_params
  | Event.load_model _ _ => Kind.load_model
  | Event.token_bos => Kind.token_bos
  | Event.context_default_params => Kind.context_default_params
  | Event.new_context _ _ _ => Kind.new_context
  | Event.batch_get_one _ => Kind.batch_get_one
  | Event.decode _ => Kind.decode
  | Event.kv_cache_clear => Kind.kv_cache_clear
  | Event.kv_cache_update => Kind.kv_cache_update
  | Event.synchronize => Kind.synchronize
  | Event.sleep_ms _ => Kind.sleep_ms
  | Event.time_us _ => Kind.time_us
  | Event.summary _ _ _ _ => Kind.summary
  | Event.fflush => Kind.fflush
  | Event.free => Kind.free
  | Event.free_model => Kind.free_model

/-- The kinds of the calls of one trial. -/
def trial_kinds : List Kind :=
  [Kind.sleep_ms, Kind.time_us, Kind.decode, Kind.synchronize, Kind.time_us,
   Kind.kv_cache_clear, Kind.kv_cache_update, Kind.synchronize]

/-- The kinds of the calls and outputs of a run of `main` that reaches the sweep. -/
def full_kinds : List Kind :=
  [Kind.model_default_params, Kind.load_model, Kind.token_bos, Kind.context_default_params,
   Kind.new_context, Kind.batch_get_one,
   Kind.decode, Kind.kv_cache_clear, Kind.kv_cache_update, Kind.synchronize]
  ++ (List.range 12).flatMap
      (fun _ => (List.range 10).flatMap (fun _ => trial_kinds) ++ [Kind.summary, Kind.fflush])
  ++ [Kind.free, Kind.free_model]

end reading

/-! ## The statistics of the spec -/

section specdefs
variable {α : Type} [Zero α] [Add α] [Sub α] [Mul α] [Div α] [IntCast α]

/-- The arithmetic mean of the spec: the sum of the samples over their number. -/
def spec_mean (xs : List Int) : α :=
  (xs.map (fun (x : Int) => (x : α))).sum / ((xs.length : Int) : α)

/-- The unbiased (Bessel-corrected) sample variance of the spec: the sum of the squared
distances to the mean over the number of samples less one. -/
def spec_variance (xs : List Int) : α :=
  (xs.map (fun (x : Int) => ((x : α) - spec_mean xs) * ((x : α) - spec_mean xs))).sum
    / (((xs.length : Int) - 1 : Int) : α)

end specdefs

/-! ## Properties of a sequence of calls -/

/-- Calls made to the `llama` library, as opposed to output and sleeping on the host. -/
def Kind.is_engine_call : Kind → Bool
  | Kind.stdout | Kind.stderr | Kind.sleep_ms | Kind.summary | Kind.fflush => false
  | _ => true

/-- Number of cache resets in a sequence of calls: the places where `llama_kv_cache_clear`,
`llama_kv_cache_update`, `llama_synchronize` follow one another. -/
def count_resets : List Kind → Nat
  | [] => 0
  | k :: rest =>
    (if (k :: rest).take 3 = [Kind.kv_cache_clear, Kind.kv_cache_update, Kind.synchronize]
      then 1 else 0) + count_resets rest

/-- For every decode call of a sequence, the calls that follow it up to the next decode call or
up to the teardown (`llama_free`). -/
def after_decodes : List Kind → List (List Kind)
  | [] => []
  | k :: rest =>
    if k = Kind.decode then
      rest.takeWhile (fun x => decide (x ≠ Kind.decode ∧ x ≠ Kind.free)) :: after_decodes rest
    else after_decodes rest

/-- The measured intervals of a sequence of calls: the clock reads are paired in order, a start
read with the end read that follows it, and for every pair the calls strictly between the two
reads are listed; `open_window` holds the calls seen since a start read that has no end read
yet. -/
def timed_windows : List Kind → Option (List Kind) → List (List Kind)
  | [], _ => []
  | k :: rest, none =>
    if k = Kind.time_us then timed_windows rest (some []) else timed_windows rest none
  | k :: rest, some open_window =>
    if k = Kind.time_us then open_window :: timed_windows rest none
    else timed_windows rest (some (open_window ++ [k]))

/-- For every clock read of a sequence, the last call to the library made before it (`last`
is the last one made so far). -/
def last_call_before_reads : List Kind → Option Kind → List (Option Kind)
  | [], _ => []
  | k :: rest, last =>
    if k = Kind.time_us then last :: last_call_before_reads rest (some k)
    else if k.is_engine_call then last_call_before_reads rest (some k)
    else last_call_before_reads rest last

/-- The first two arguments of a summary line: `n_iters` and `(int) t_pause_ms`. -/
def Event.iters_pause {α : Type} : Event α → Option (Int × Int)
  | Event.summary iters pause _ _ => some (iters, pause)
  | _ => none

/-- The third argument of a summary line: the mean in milliseconds. -/
def Event.avg_ms {α : Type} : Event α → Option α
  | Event.summary _ _ avg _ => some avg
  | _ => none

/-- The fourth argument of a summary line: the deviation in milliseconds. -/
def Event.dev_ms {α : Type} : Event α → Option α
  | Event.summary _ _ _ dev => some dev
  | _ => none

/-- Well-formed options in front of the place where the option scan of `main` stands: pairs
`-m value` and `-ngl value` whose `-ngl` values `stoi` accepts. -/
def option_pairs (stoi : String → Option Int) : List String → Bool
  | [] => true
  | [_] => false
  | a :: v :: rest =>
    if a = "-m" then option_pairs stoi rest
    else if a = "-ngl" then (stoi v).isSome && option_pairs stoi rest
    else false

/-! ## Engines used as examples -/

/-- An engine on which everything succeeds and every trial takes 50 ms: trial `m` (from 0)
starts at `3 m` seconds. -/
def steady_engine : Engine where
  load := fun _ _ => true
  new_context := true
  decode := fun _ => 0
  time_us := fun k => 3000000 * (k / 2 : Nat) + (if k % 2 = 1 then 50000 else 0)

/-- An engine whose decode call number 13 (the third trial of the second bucket, whose clock
reads are number 24 and 25) fails with status -1 after 50.01 ms; every other decode call
succeeds after 50 ms. -/
def failing_engine : Engine where
  load := fun _ _ => true
  new_context := true
  decode := fun k => if k = 13 then -1 else 0
  time_us := fun k =>
    3000000 * (k / 2 : Nat) + (if k % 2 = 1 then (if k = 25 then 50010 else 50000) else 0)

/-- An engine on which every trial takes 54.800001 s. -/
def slow_engine : Engine where
  load := fun _ _ => true
  new_context := true
  decode := fun _ => 0
  time_us := fun k => 100000000 * (k / 2 : Nat) + (if k % 2 = 1 then 54800001 else 0)

/-- An engine whose first two trials take 10 and 20 microseconds. -/
def two_sample_engine : Engine where
  load := fun _ _ => true
  new_context := true
  decode := fun _ => 0
  time_us := fun k => if k = 0 then 0 else if k = 1 then 10 else if k = 2 then 10 else 30

/-! ## The usage exit -/

section usage
variable {α : Type}

/-- The outcome of a run that only prints the usage text: no call to the library is made and
status 1 is returned. -/
def usage_run (argv0 : String) : Outcome α :=
  { state :=
      { trace := [Event.stdout "\nexample usage:\n",
                  Event.stdout ("\n    " ++ argv0 ++ " -m model.gguf [-ngl n_gpu_layers]\n"),
                  Event.stdout "\n"]
        n_decode := 0
        n_time := 0 }
    status := 1 }

end usage

/-! ## Facts about the loops -/

section loops
variable {α : Type} [Zero α] [Add α] [Sub α] [Mul α] [Div α] [IntCast α]

/-- One trial: eight calls, one more decode call, two more clock reads, and the sample added to
both sums. -/
theorem trial_eq (eng : Engine) (p : Int) (a : Acc α) :
    trial eng p a =
      { state :=
          { trace := a.state.trace ++ trial_events eng p a.state.n_decode a.state.n_time
            n_decode := a.state.n_decode + 1
            n_time := a.state.n_time + 2 }
        t_sum_us := a.t_sum_us + ((sample eng a.state.n_time : Int) : α)
        t_sum2_us := a.t_sum2_us
          + ((sample eng a.state.n_time : Int) : α) * ((sample eng a.state.n_time : Int) : α) } := by
  simp [trial, llama_time_us, llama_decode, State.emit, trial_events, sample]

/-- The effect of `k` trials in a row. -/
theorem trial_iterate (eng : Engine) (p : Int) (a : Acc α) (k : Nat) :
    (trial eng p)^[k] a =
      { state :=
          { trace := a.state.trace ++ (List.range k).flatMap
              (fun j => trial_events eng p (a.state.n_decode + j) (a.state.n_time + 2 * j))
            n_decode := a.state.n_decode + k
            n_time := a.state.n_time + 2 * k }
        t_sum_us := sum_of (samples eng a.state.n_time k) a.t_sum_us
        t_sum2_us := sum2_of (samples eng a.state.n_time k) a.t_sum2_us } := by
  induction k with
  | zero => simp [samples, sum_of, sum2_of]
  | succ k ih =>
    rw [Function.iterate_succ_apply', ih, trial_eq]
    simp [samples, sum_of, sum2_of, List.range_succ, List.flatMap_append, List.foldl_append,
      Nat.mul_add, Nat.add_assoc]

/-- The trial loop from `i` on runs the body `n_iters - i` times. -/
theorem trial_loop_eq (eng : Engine) (p : Int) (n : Int) (i : Int) (a : Acc α) :
    trial_loop eng p n i a = (trial eng p)^[(n - i).toNat] a := by
  generalize hk : (n - i).toNat = k
  induction k generalizing i a with
  | zero =>
    rw [trial_loop, if_neg (by omega)]
    rfl
  | succ k ih =>
    rw [trial_loop, if_pos (by omega), ih (i + 1) _ (by omega), Function.iterate_succ_apply]

/-- The effect of one bucket. -/
theorem bucket_eq (sqrt : α → α) (eng : Engine) (n : Int) (p : Int) (s : State α) :
    bucket sqrt eng n p s =
      { trace := s.trace ++ bucket_events sqrt eng n p s.n_decode s.n_time
        n_decode := s.n_decode + n.toNat
        n_time := s.n_time + 2 * n.toNat } := by
  simp [bucket, trial_loop_eq, trial_iterate, State.emit, bucket_events, summary_of]

/-- The sweep loop runs the bucket for the pauses 0, 200, ..., 2200 and stops. -/
theorem sweep_loop_eq (sqrt : α → α) (eng : Engine) (n : Int) (s : State α) :
    sweep_loop sqrt eng n 0 s =
      ([0, 200, 400, 600, 800, 1000, 1200, 1400, 1600, 1800, 2000, 2200] : List Int).foldl
        (fun s p => bucket sqrt eng n p s) s := by
  iterate 12 rw [sweep_loop, if_pos (by norm_num)]
  rw [sweep_loop, if_neg (by norm_num)]
  norm_num

/-- The outcome of `main` when the arguments parse, the model loads and the context is created. -/
theorem main_reaches_sweep (sqrt : α → α) (stoi : String → Option Int) (eng : Engine)
    (argv0 : String) (args : List String) (model_path : String) (ngl : Int)
    (hparse : parse_args stoi args = Parsed.ok model_path ngl)
    (hload : eng.load model_path ngl = true) (hctx : eng.new_context = true) :
    main sqrt stoi eng argv0 args =
      { state :=
          { trace := full_trace sqrt eng model_path ngl
            n_decode := 121
            n_time := 240 }
        status := 0 } := by
  simp [main, hparse, hload, hctx, warm_up, llama_decode, State.emit, State.init,
    sweep_loop_eq, bucket_eq, n_iters, full_trace, List.range_succ]

/-- The kinds of the calls of one trial. -/
theorem trial_events_kinds (eng : Engine) (p : Int) (d t : Nat) :
    (trial_events eng p d t : List (Event α)).map Event.kind = trial_kinds := rfl

/-- The kinds of the calls of `k` trials. -/
theorem flatMap_trial_kinds (eng : Engine) (p : Int) (d t : Nat) (k : Nat) :
    ((List.range k).flatMap
      (fun j => (trial_events eng p (d + j) (t + 2 * j) : List (Event α)))).map Event.kind
      = (List.range k).flatMap (fun _ => trial_kinds) := by
  induction k with
  | zero => rfl
  | succ k ih => simp [List.range_succ, List.flatMap_append, ih, trial_events_kinds]

/-- The kinds of the calls of a run do not depend on the engine. -/
theorem full_trace_kinds (sqrt : α → α) (eng : Engine) (model_path : String) (ngl : Int) :
    (full_trace sqrt eng model_path ngl).map Event.kind = full_kinds := by
  simp only [full_trace, full_kinds, bucket_events, List.map_append, List.map_flatMap,
    flatMap_trial_kinds, summary_of]
  rfl

/-- The trials write no summary line. -/
theorem flatMap_trial_summaries (eng : Engine) (p : Int) (d t : Nat) (k : Nat) :
    summaries ((List.range k).flatMap
      (fun j => (trial_events eng p (d + j) (t + 2 * j) : List (Event α)))) = [] := by
  induction k with
  | zero => rfl
  | succ k ih =>
    simp only [summaries] at ih
    simp only [summaries, List.range_succ, List.flatMap_append, List.filter_append, ih]
    rfl

/-- One bucket writes one summary line. -/
theorem bucket_events_summaries (sqrt : α → α) (eng : Engine) (n : Int) (p : Int) (d t : Nat) :
    summaries (bucket_events sqrt eng n p d t) = [summary_of sqrt n p (samples eng t n.toNat)] := by
  have h := flatMap_trial_summaries (α := α) eng p d t n.toNat
  simp only [summaries] at h
  simp [summaries, bucket_events, h, summary_of, Event.is_summary]

/-- The summary lines of a run. -/
theorem full_trace_summaries (sqrt : α → α) (eng : Engine) (model_path : String) (ngl : Int) :
    summaries (full_trace sqrt eng model_path ngl) =
      (List.range 12).map
        (fun (k : Nat) => summary_of sqrt 10 (200 * (k : Int)) (samples eng (20 * k) 10)) := by
  have hb := fun (p : Int) (d t : Nat) => bucket_events_summaries sqrt eng 10 p d t
  simp only [summaries] at hb
  simp [summaries, full_trace, List.range_succ, List.filter_append, hb, Event.is_summary]

/-- The first two arguments of a summary line. -/
theorem summary_of_iters_pause (sqrt : α → α) (n p : Int) (xs : List Int) :
    (summary_of sqrt n p xs).iters_pause = some (n, p) := rfl

/-- The iteration counts and pauses of the summary lines of a run. -/
theorem full_trace_iters_pause (sqrt : α → α) (eng : Engine) (model_path : String) (ngl : Int) :
    (summaries (full_trace sqrt eng model_path ngl)).map Event.iters_pause =
      [some (10, 0), some (10, 200), some (10, 400), some (10, 600), some (10, 800),
       some (10, 1000), some (10, 1200), some (10, 1400), some (10, 1600), some (10, 1800),
       some (10, 2000), some (10, 2200)] := by
  rw [full_trace_summaries, List.map_map]
  rfl

/-- The first twelve calls of a run. -/
theorem full_trace_start (sqrt : α → α) (eng : Engine) (model_path : String) (ngl : Int) :
    (full_trace sqrt eng model_path ngl).take 12 =
      [Event.model_default_params, Event.load_model model_path ngl, Event.token_bos,
       Event.context_default_params, Event.new_context 512 512 false,
       Event.batch_get_one 1, Event.decode (eng.decode 0), Event.kv_cache_clear,
       Event.kv_cache_update, Event.synchronize, Event.sleep_ms 0,
       Event.time_us (eng.time_us 0)] := by
  have h12 : List.range 12 = 0 :: (List.range 11).map Nat.succ := List.range_succ_eq_map 11
  have h10 : List.range (10 : Int).toNat = 0 :: (List.range 9).map Nat.succ :=
    List.range_succ_eq_map 9
  simp only [full_trace, h12, List.flatMap_cons, bucket_events, h10, trial_events,
    List.cons_append, List.nil_append, List.append_assoc]
  rfl

end loops

/-! ## The order of the calls of a run -/

/-- After each of the 121 decode calls there is one cache reset. -/
theorem full_kinds_resets :
    (after_decodes full_kinds).length = 121 ∧
    ∀ seg ∈ after_decodes full_kinds,
      count_resets seg = 1 ∧ seg.count Kind.kv_cache_clear = 1
        ∧ seg.count Kind.kv_cache_update = 1 := by
  decide

/-- Between a start read and its end read there is a decode and a synchronize. -/
theorem full_kinds_windows :
    timed_windows full_kinds none = List.replicate 120 [Kind.decode, Kind.synchronize] := by
  decide

/-- The last library call before every clock read is a synchronize. -/
theorem full_kinds_last_calls :
    last_call_before_reads full_kinds none = List.replicate 240 (some Kind.synchronize) := by
  decide

/-- What precedes the first sleep, and the number of decode calls and summary lines. -/
theorem full_kinds_warm_up :
    full_kinds.takeWhile (fun k => decide (k ≠ Kind.sleep_ms)) =
      [Kind.model_default_params, Kind.load_model, Kind.token_bos,
       Kind.context_default_params, Kind.new_context, Kind.batch_get_one,
       Kind.decode, Kind.kv_cache_clear, Kind.kv_cache_update, Kind.synchronize] ∧
    full_kinds.count Kind.decode = 121 ∧ full_kinds.count Kind.summary = 12 := by
  decide

/-! ## Exact arithmetic -/

/-- In exact arithmetic the running sum is the sum of the samples. -/
theorem sum_of_real (xs : List Int) (c : ℝ) :
    sum_of xs c = c + (xs.map (fun (x : Int) => (x : ℝ))).sum := by
  induction xs generalizing c with
  | nil => simp [sum_of]
  | cons x xs ih =>
    have h := ih (c + (x : ℝ))
    simp only [sum_of, List.foldl_cons, List.map_cons, List.sum_cons] at h ⊢
    rw [h]; ring

/-- In exact arithmetic the running sum of squares is the sum of the squares. -/
theorem sum2_of_real (xs : List Int) (c : ℝ) :
    sum2_of xs c = c + (xs.map (fun (x : Int) => (x : ℝ) * (x : ℝ))).sum := by
  induction xs generalizing c with
  | nil => simp [sum2_of]
  | cons x xs ih =>
    have h := ih (c + (x : ℝ) * (x : ℝ))
    simp only [sum2_of, List.foldl_cons, List.map_cons, List.sum_cons] at h ⊢
    rw [h]; ring

/-- The sum of the squared distances to `m`, expanded. -/
theorem sum_sq_dist (xs : List Int) (m : ℝ) :
    (xs.map (fun (x : Int) => ((x : ℝ) - m) * ((x : ℝ) - m))).sum
      = (xs.map (fun (x : Int) => (x : ℝ) * (x : ℝ))).sum - 2 * m * (xs.map (fun (x : Int) => (x : ℝ))).sum
        + (xs.length : ℝ) * (m * m) := by
  induction xs with
  | nil => simp
  | cons x xs ih =>
    simp only [List.map_cons, List.sum_cons, List.length_cons, ih]
    push_cast; ring

/-- The average of line 122 is the mean. -/
theorem avg_eq_mean (xs : List Int) :
    t_avg_us (xs.length : Int) (sum_of xs (0 : ℝ)) = spec_mean xs := by
  simp [t_avg_us, spec_mean, sum_of_real]

/-- The argument of `sqrt` in line 123 is the unbiased sample variance. -/
theorem var_eq_variance (xs : List Int) (h : 2 ≤ xs.length) :
    t_var_us (xs.length : Int) (sum2_of xs (0 : ℝ)) (t_avg_us (xs.length : Int) (sum_of xs (0 : ℝ)))
      = spec_variance xs := by
  have hn : (2 : ℝ) ≤ (xs.length : ℝ) := by exact_mod_cast h
  have hn0 : (xs.length : ℝ) ≠ 0 := by linarith
  have hn1 : (xs.length : ℝ) - 1 ≠ 0 := by intro h0; linarith
  rw [avg_eq_mean]
  simp only [t_var_us, spec_variance, sum2_of_real, sum_sq_dist, zero_add]
  have hm : (xs.map (fun (x : Int) => (x : ℝ))).sum = (xs.length : ℝ) * spec_mean xs := by
    simp only [spec_mean]; push_cast; field_simp
  rw [hm]
  push_cast
  field_simp
  ring

/-- The unbiased sample variance is not negative. -/
theorem variance_nonneg (xs : List Int) (h : 2 ≤ xs.length) : 0 ≤ (spec_variance xs : ℝ) := by
  have hn : (2 : ℝ) ≤ (xs.length : ℝ) := by exact_mod_cast h
  simp only [spec_variance]
  apply div_nonneg
  · apply List.sum_nonneg
    intro y hy
    obtain ⟨x, _, rfl⟩ := List.mem_map.mp hy
    exact mul_self_nonneg _
  · push_cast; linarith

/-- Samples that are all `v`. -/
theorem samples_const (eng : Engine) (t k : Nat) (v : Int)
    (h : ∀ j, j < k → sample eng (t + 2 * j) = v) : samples eng t k = List.replicate k v := by
  induction k with
  | zero => rfl
  | succ k ih =>
    have h1 := ih (fun j hj => h j (Nat.lt_succ_of_lt hj))
    simp only [samples] at h1
    simp [samples, List.range_succ, List.replicate_succ', h1, h k (Nat.lt_succ_self k)]

/-- Average and pre-root quantity of ten samples `v` in exact arithmetic. -/
theorem stats_const (v : Int) :
    t_avg_us 10 (sum_of (List.replicate 10 v) (0 : ℝ)) = v ∧
    t_var_us 10 (sum2_of (List.replicate 10 v) (0 : ℝ)) (v : ℝ) = 0 := by
  have ha : t_avg_us 10 (sum_of (List.replicate 10 v) (0 : ℝ)) = v := by
    simp only [t_avg_us, sum_of_real, List.map_replicate, List.sum_replicate]
    push_cast
    simp only [nsmul_eq_mul]
    push_cast
    ring
  refine ⟨ha, ?_⟩
  simp only [t_var_us, sum2_of_real, List.map_replicate, List.sum_replicate, nsmul_eq_mul]
  push_cast
  ring

/-! ## Binary64 arithmetic on integers below `2 ^ 53` -/

namespace Dbl

/-- A number is below two to the number of its binary digits. -/
theorem bits_lt : ∀ (fuel n : Nat), n ≤ fuel → n < 2 ^ bits fuel n
  | 0, n, h => by
    have : n = 0 := by omega
    subst this
    simp [bits]
  | fuel + 1, n, h => by
    unfold bits
    by_cases hn : n = 0
    · simp [hn]
    · rw [if_neg hn]
      have ih := bits_lt fuel (n / 2) (by omega)
      rw [pow_succ]
      omega

/-- A positive number is at least two to the number of its binary digits less one. -/
theorem bits_le : ∀ (fuel n : Nat), n ≤ fuel → 0 < n → 2 ^ (bits fuel n - 1) ≤ n
  | 0, n, h, hn => by omega
  | fuel + 1, n, h, hn => by
    unfold bits
    rw [if_neg (by omega)]
    simp only [Nat.add_sub_cancel]
    by_cases h1 : n / 2 = 0
    · have hb : bits fuel (n / 2) = 0 := by
        rw [h1]; cases fuel <;> simp [bits]
      rw [hb]; simpa using hn
    · have ih := bits_le fuel (n / 2) (by omega) (by omega)
      have hpos : 1 ≤ bits fuel (n / 2) := by
        by_contra hc
        have h0 : bits fuel (n / 2) = 0 := by omega
        have hlt := bits_lt fuel (n / 2) (by omega)
        rw [h0] at hlt
        omega
      obtain ⟨b, hb⟩ : ∃ b, bits fuel (n / 2) = b + 1 := ⟨bits fuel (n / 2) - 1, by omega⟩
      rw [hb] at ih ⊢
      simp only [Nat.add_sub_cancel] at ih
      rw [pow_succ]
      omega

/-- A positive number has at least one binary digit. -/
theorem bits_pos (n : Nat) (hn : 0 < n) : 1 ≤ bits n n := by
  by_contra hc
  have h0 : bits n n = 0 := by omega
  have hlt := bits_lt n n le_rfl
  rw [h0] at hlt
  omega

/-- A positive number below `2 ^ k` has at most `k` binary digits. -/
theorem bits_le_of_lt (n k : Nat) (hn : 0 < n) (h : n < 2 ^ k) : bits n n ≤ k := by
  have hle := bits_le n n le_rfl hn
  by_contra hc
  have : 2 ^ k ≤ 2 ^ (bits n n - 1) := Nat.pow_le_pow_right (by norm_num) (by omega)
  omega


/-- The number of binary digits of a product. -/
theorem bits_mul (n d : Nat) (hn : 0 < n) (hd : 0 < d) :
    bits (n * d) (n * d) = bits n n + bits d d ∨ bits (n * d) (n * d) + 1 = bits n n + bits d d := by
  have hA : 0 < n * d := Nat.mul_pos hn hd
  have h1 := bits_lt (n * d) (n * d) le_rfl
  have h2 := bits_le (n * d) (n * d) le_rfl hA
  have h3 := bits_lt n n le_rfl
  have h4 := bits_le n n le_rfl hn
  have h5 := bits_lt d d le_rfl
  have h6 := bits_le d d le_rfl hd
  have hB := bits_pos n hn
  have hD := bits_pos d hd
  have hAp := bits_pos (n * d) hA
  have hup : n * d < 2 ^ (bits n n + bits d d) := by
    rw [pow_add]; exact Nat.mul_lt_mul'' h3 h5
  have hlo : 2 ^ (bits n n - 1 + (bits d d - 1)) ≤ n * d := by
    rw [pow_add]; exact Nat.mul_le_mul h4 h6
  have ha : bits (n * d) (n * d) - 1 < bits n n + bits d d :=
    (Nat.pow_lt_pow_iff_right (by norm_num : 1 < 2)).mp (lt_of_le_of_lt h2 hup)
  have hb : bits n n - 1 + (bits d d - 1) < bits (n * d) (n * d) :=
    (Nat.pow_lt_pow_iff_right (by norm_num : 1 < 2)).mp (lt_of_le_of_lt hlo h1)
  omega

/-- Rounding a quotient that is a positive integer below `2 ^ 53` is exact: the result is that
integer in canonical form. -/
theorem round_exact (neg : Bool) (n d : Nat) (hn : 0 < n) (hn53 : n < 2 ^ 53) (hd : 0 < d) :
    round neg (n * d) d =
      fin (if neg then -((n * 2 ^ (53 - bits n n) : Nat) : Int)
            else ((n * 2 ^ (53 - bits n n) : Nat) : Int)) ((bits n n : Int) - 53) := by
  have hB1 := bits_pos n hn
  have hB53 := bits_le_of_lt n 53 hn hn53
  have hnlt := bits_lt n n le_rfl
  have hnle := bits_le n n le_rfl hn
  obtain ⟨B, hB⟩ : ∃ B, bits n n = B := ⟨_, rfl⟩
  rw [hB] at hB1 hB53 hnlt hnle ⊢
  -- the exponent found by `round`
  have he : (if (if (0 : Int) ≤ (bits (n * d) (n * d) : Int) - (bits d d : Int)
        then decide (d * 2 ^ ((bits (n * d) (n * d) : Int) - (bits d d : Int)).toNat ≤ n * d)
        else decide (d ≤ n * d * 2 ^ (-((bits (n * d) (n * d) : Int) - (bits d d : Int))).toNat))
        = true
      then (bits (n * d) (n * d) : Int) - (bits d d : Int)
      else (bits (n * d) (n * d) : Int) - (bits d d : Int) - 1) = (B : Int) - 1 := by
    rcases bits_mul n d hn hd with h | h
    · have h0 : ((bits (n * d) (n * d) : Int) - (bits d d : Int)) = (B : Int) := by
        rw [hB] at h; omega
      rw [h0]
      have : ¬ d * 2 ^ B ≤ n * d := by
        rw [Nat.mul_comm n d]
        intro hc
        have := Nat.le_of_mul_le_mul_left hc hd
        omega
      simp [this]
    · have h0 : ((bits (n * d) (n * d) : Int) - (bits d d : Int)) = (B : Int) - 1 := by
        rw [hB] at h; omega
      rw [h0]
      have h1 : (0 : Int) ≤ (B : Int) - 1 := by omega
      have h2 : ((B : Int) - 1).toNat = B - 1 := by omega
      have : d * 2 ^ (B - 1) ≤ n * d := by
        rw [Nat.mul_comm n d]
        exact Nat.mul_le_mul_left d hnle
      simp [h1, h2, this]
  have hq : max ((B : Int) - 1 - 52) (-1074) = (B : Int) - 53 := by omega
  have hpow : n * 2 ^ (53 - B) < 2 ^ 53 := by
    calc n * 2 ^ (53 - B) < 2 ^ B * 2 ^ (53 - B) :=
          Nat.mul_lt_mul_of_pos_right hnlt (by positivity)
      _ = 2 ^ 53 := by rw [← pow_add]; congr 1; omega
  have hne : n * 2 ^ (53 - B) ≠ 0 := by positivity
  unfold round
  simp only [he, hq]
  by_cases hlt : (B : Int) - 53 < 0
  · have ht : (-((B : Int) - 53)).toNat = 53 - B := by omega
    have hdiv : n * d * 2 ^ (53 - B) / d = n * 2 ^ (53 - B) := by
      rw [show n * d * 2 ^ (53 - B) = d * (n * 2 ^ (53 - B)) by ring]
      exact Nat.mul_div_cancel_left _ hd
    have hmod : n * d * 2 ^ (53 - B) % d = 0 := by
      rw [show n * d * 2 ^ (53 - B) = d * (n * 2 ^ (53 - B)) by ring]
      exact Nat.mul_mod_right _ _
    have hd0 : ¬ d < 0 := by omega
    have hd1 : ¬ (0 = d) := by omega
    have h53 : ¬ (n * 2 ^ (53 - B) = 9007199254740992) := by
      norm_num at hpow; omega
    have h971 : ¬ ((971 : Int) < (B : Int) - 53) := by omega
    simp [hlt, ht, hdiv, hmod, hd0, hd1, hne, h53, h971]
  · have hB' : B = 53 := by omega
    subst hB'
    have hd1 : ¬ (0 = d) := by omega
    have h53 : ¬ (n = 9007199254740992) := by
      norm_num at hn53; omega
    simp [Nat.mul_div_cancel _ hd, hd1, h53, Nat.pos_iff_ne_zero.mp hn]


/-- Rounding a dyadic number that is a positive integer below `2 ^ 53` is exact. -/
theorem ofDyadic_exact (n j : Nat) (hn : 0 < n) (hn53 : n < 2 ^ 53) :
    ofDyadic ((n * 2 ^ j : Nat) : Int) (-(j : Int)) =
      fin ((n * 2 ^ (53 - bits n n) : Nat) : Int) ((bits n n : Int) - 53) := by
  have hpos : 0 < n * 2 ^ j := by positivity
  have hne : ((n * 2 ^ j : Nat) : Int) ≠ 0 := by exact_mod_cast hpos.ne'
  have hnn : ¬ (((n * 2 ^ j : Nat) : Int) < 0) := by omega
  unfold ofDyadic
  rw [if_neg hne]
  by_cases hj : j = 0
  · subst hj
    have h := round_exact false n 1 hn hn53 (by norm_num)
    simpa [hnn] using h
  · have h0 : ¬ ((0 : Int) ≤ -(j : Int)) := by omega
    have ht : (-(-(j : Int))).toNat = j := by omega
    have h := round_exact false n (2 ^ j) hn hn53 (by positivity)
    rw [if_neg h0, ht, Int.natAbs_ofNat, decide_eq_false hnn]
    simpa using h

/-- The conversion of a positive integer below `2 ^ 53` is exact. -/
theorem cast_eq (n : Nat) (hn : 0 < n) (hn53 : n < 2 ^ 53) :
    (((n : Int)) : Dbl) =
      fin ((n * 2 ^ (53 - bits n n) : Nat) : Int) ((bits n n : Int) - 53) := by
  have h := ofDyadic_exact n 0 hn hn53
  simpa using h

/-- The sum of two positive integers is exact when it is below `2 ^ 53`. -/
theorem cast_add (a b : Nat) (ha : 0 < a) (hb : 0 < b) (h : a + b < 2 ^ 53) :
    (((a : Int)) : Dbl) + (((b : Int)) : Dbl) = ((((a + b : Nat) : Int)) : Dbl) := by
  have hBa := bits_le_of_lt a 53 ha (by omega)
  have hBb := bits_le_of_lt b 53 hb (by omega)
  rw [cast_eq a ha (by omega), cast_eq b hb (by omega), cast_eq (a + b) (by omega) h]
  rw [← ofDyadic_exact (a + b) (53 - min (bits a a) (bits b b)) (by omega) h]
  show Dbl.add _ _ = _
  unfold Dbl.add
  simp only
  congr 1
  · have e1 : (((bits a a : Int) - 53) - min ((bits a a : Int) - 53) ((bits b b : Int) - 53)).toNat
        = bits a a - min (bits a a) (bits b b) := by omega
    have e2 : (((bits b b : Int) - 53) - min ((bits a a : Int) - 53) ((bits b b : Int) - 53)).toNat
        = bits b b - min (bits a a) (bits b b) := by omega
    rw [e1, e2]
    have p1 : 2 ^ (53 - bits a a) * 2 ^ (bits a a - min (bits a a) (bits b b))
        = 2 ^ (53 - min (bits a a) (bits b b)) := by
      rw [← pow_add]; congr 1; omega
    have p2 : 2 ^ (53 - bits b b) * 2 ^ (bits b b - min (bits a a) (bits b b))
        = 2 ^ (53 - min (bits a a) (bits b b)) := by
      rw [← pow_add]; congr 1; omega
    push_cast
    have p1' : (2 : Int) ^ (53 - bits a a) * 2 ^ (bits a a - min (bits a a) (bits b b))
        = 2 ^ (53 - min (bits a a) (bits b b)) := by exact_mod_cast p1
    have p2' : (2 : Int) ^ (53 - bits b b) * 2 ^ (bits b b - min (bits a a) (bits b b))
        = 2 ^ (53 - min (bits a a) (bits b b)) := by exact_mod_cast p2
    rw [mul_assoc, mul_assoc, p1', p2']
    ring
  · omega

/-- The product of two positive integers is exact when it is below `2 ^ 53`. -/
theorem cast_mul (a b : Nat) (ha : 0 < a) (hb : 0 < b) (h : a * b < 2 ^ 53) :
    (((a : Int)) : Dbl) * (((b : Int)) : Dbl) = ((((a * b : Nat) : Int)) : Dbl) := by
  have hab : 0 < a * b := Nat.mul_pos ha hb
  have ha53 : a < 2 ^ 53 := lt_of_le_of_lt (Nat.le_mul_of_pos_right a hb) h
  have hb53 : b < 2 ^ 53 := lt_of_le_of_lt (Nat.le_mul_of_pos_left b ha) h
  have hBa := bits_le_of_lt a 53 ha ha53
  have hBb := bits_le_of_lt b 53 hb hb53
  rw [cast_eq a ha ha53, cast_eq b hb hb53, cast_eq (a * b) hab h]
  rw [← ofDyadic_exact (a * b) (53 - bits a a + (53 - bits b b)) hab h]
  show Dbl.mul _ _ = _
  unfold Dbl.mul
  simp only
  congr 1
  · push_cast
    rw [pow_add]
    ring
  · omega

/-- The quotient of `a * b` by `b` is exactly `a` when `a * b` is below `2 ^ 53`. -/
theorem cast_div (a b : Nat) (ha : 0 < a) (hb : 0 < b) (h : a * b < 2 ^ 53) :
    ((((a * b : Nat) : Int)) : Dbl) / (((b : Int)) : Dbl) = (((a : Int)) : Dbl) := by
  have hab : 0 < a * b := Nat.mul_pos ha hb
  have ha53 : a < 2 ^ 53 := lt_of_le_of_lt (Nat.le_mul_of_pos_right a hb) h
  have hb53 : b < 2 ^ 53 := lt_of_le_of_lt (Nat.le_mul_of_pos_left b ha) h
  have hBa := bits_le_of_lt a 53 ha ha53
  have hBb := bits_le_of_lt b 53 hb hb53
  have hBab := bits_le_of_lt (a * b) 53 hab h
  rw [cast_eq a ha ha53, cast_eq b hb hb53, cast_eq (a * b) hab h]
  show Dbl.div _ _ = _
  unfold Dbl.div
  have hm1 : ((a * b * 2 ^ (53 - bits (a * b) (a * b)) : Nat) : Int) ≠ 0 := by
    have : 0 < a * b * 2 ^ (53 - bits (a * b) (a * b)) := by positivity
    exact_mod_cast this.ne'
  have hm2 : ((b * 2 ^ (53 - bits b b) : Nat) : Int) ≠ 0 := by
    have : 0 < b * 2 ^ (53 - bits b b) := by positivity
    exact_mod_cast this.ne'
  have hn1 : ¬ (((a * b * 2 ^ (53 - bits (a * b) (a * b)) : Nat) : Int) < 0) := by omega
  have hn2 : ¬ (((b * 2 ^ (53 - bits b b) : Nat) : Int) < 0) := by omega
  simp only [if_neg hm1, if_neg hm2, hn1, hn2, decide_False, Bool.xor_false, Int.natAbs_ofNat]
  have key : a * b * 2 ^ (53 - bits (a * b) (a * b))
        * 2 ^ (((bits (a * b) (a * b) : Int) - 53) - ((bits b b : Int) - 53)).toNat
      = a * (b * 2 ^ (53 - bits b b)
        * 2 ^ (((bits b b : Int) - 53) - ((bits (a * b) (a * b) : Int) - 53)).toNat) := by
    by_cases hc : bits b b ≤ bits (a * b) (a * b)
    · have e1 : (((bits (a * b) (a * b) : Int) - 53) - ((bits b b : Int) - 53)).toNat
          = bits (a * b) (a * b) - bits b b := by omega
      have e2 : (((bits b b : Int) - 53) - ((bits (a * b) (a * b) : Int) - 53)).toNat = 0 := by
        omega
      rw [e1, e2, pow_zero, mul_one, mul_assoc (a * b), ← pow_add,
        show 53 - bits (a * b) (a * b) + (bits (a * b) (a * b) - bits b b) = 53 - bits b b by
          omega]
      ring
    · have e1 : (((bits (a * b) (a * b) : Int) - 53) - ((bits b b : Int) - 53)).toNat = 0 := by
        omega
      have e2 : (((bits b b : Int) - 53) - ((bits (a * b) (a * b) : Int) - 53)).toNat
          = bits b b - bits (a * b) (a * b) := by omega
      rw [e1, e2, pow_zero, mul_one, mul_assoc b, ← pow_add,
        show 53 - bits b b + (bits b b - bits (a * b) (a * b)) = 53 - bits (a * b) (a * b) by
          omega]
      ring
  rw [key]
  have h := round_exact false a (b * 2 ^ (53 - bits b b)
        * 2 ^ (((bits b b : Int) - 53) - ((bits (a * b) (a * b) : Int) - 53)).toNat)
      ha ha53 (by positivity)
  simpa using h


/-- Adding a positive integer below `2 ^ 53` to `0.0` is exact. -/
theorem zero_add_cast (n : Nat) (hn : 0 < n) (hn53 : n < 2 ^ 53) :
    (0 : Dbl) + (((n : Int)) : Dbl) = (((n : Int)) : Dbl) := by
  have hB := bits_le_of_lt n 53 hn hn53
  rw [cast_eq n hn hn53]
  refine Eq.trans ?_ (ofDyadic_exact n (53 - bits n n) hn hn53)
  show Dbl.add (fin 0 0) _ = _
  unfold Dbl.add
  simp only
  have hmin : min (0 : Int) ((bits n n : Int) - 53) = (bits n n : Int) - 53 := by omega
  rw [hmin]
  congr 1
  · simp
  · omega

/-- Rounding a positive quotient below `2 ^ 53` gives a finite value. -/
theorem round_fin (neg : Bool) (a d : Nat) (ha : 0 < a) (h : a < d * 2 ^ 53) :
    ∃ m e, round neg a d = fin m e := by
  have h1 := bits_le a a le_rfl ha
  have h2 := bits_lt d d le_rfl
  have hlt : 2 ^ (bits a a - 1) < 2 ^ (bits d d + 53) := by
    calc 2 ^ (bits a a - 1) ≤ a := h1
      _ < d * 2 ^ 53 := h
      _ < 2 ^ bits d d * 2 ^ 53 := Nat.mul_lt_mul_of_pos_right h2 (by positivity)
      _ = 2 ^ (bits d d + 53) := by rw [pow_add]
  have hb : bits a a - 1 < bits d d + 53 :=
    (Nat.pow_lt_pow_iff_right (by norm_num : 1 < 2)).mp hlt
  have he0 : (bits a a : Int) - (bits d d : Int) ≤ 54 := by omega
  have key : ∀ (n1 : Nat) (q : Int), q ≤ 2 → ∃ m e,
      (match (if n1 = 2 ^ 53 then ((2 : Nat) ^ 52, q + 1) else (n1, q)) with
        | (n2, q2) =>
          if n2 = 0 then fin 0 0 else if 971 < q2 then inf neg
          else fin (if neg = true then -(n2 : Int) else (n2 : Int)) q2) = fin m e := by
    intro n1 q hq
    by_cases hc : n1 = 2 ^ 53
    · rw [if_pos hc]
      dsimp only
      rw [if_neg (by norm_num), if_neg (by omega)]
      exact ⟨_, _, rfl⟩
    · rw [if_neg hc]
      dsimp only
      by_cases h0 : n1 = 0
      · rw [if_pos h0]; exact ⟨_, _, rfl⟩
      · rw [if_neg h0, if_neg (by omega)]
        exact ⟨_, _, rfl⟩
  unfold round
  refine key _ _ ?_
  generalize (bits a a : Int) - (bits d d : Int) = e0 at he0
  split_ifs <;> omega

/-- A finite value less itself is zero. -/
theorem sub_self_fin (m e : Int) : (fin m e : Dbl) - fin m e = 0 := by
  show Dbl.add (fin m e) (Dbl.neg (fin m e)) = fin 0 0
  simp [Dbl.add, Dbl.neg, ofDyadic]


/-- The quotient of two positive integers below `2 ^ 53` is a finite value. -/
theorem cast_div_fin (a b : Nat) (ha : 0 < a) (hb : 0 < b) (ha53 : a < 2 ^ 53)
    (hb53 : b < 2 ^ 53) : ∃ m e, (((a : Int)) : Dbl) / (((b : Int)) : Dbl) = fin m e := by
  have hBa := bits_le_of_lt a 53 ha ha53
  have hBb := bits_le_of_lt b 53 hb hb53
  rw [cast_eq a ha ha53, cast_eq b hb hb53]
  show ∃ m e, Dbl.div _ _ = fin m e
  unfold Dbl.div
  have hm1 : ((a * 2 ^ (53 - bits a a) : Nat) : Int) ≠ 0 := by
    have : 0 < a * 2 ^ (53 - bits a a) := by positivity
    exact_mod_cast this.ne'
  have hm2 : ((b * 2 ^ (53 - bits b b) : Nat) : Int) ≠ 0 := by
    have : 0 < b * 2 ^ (53 - bits b b) := by positivity
    exact_mod_cast this.ne'
  simp only [if_neg hm1, if_neg hm2, Int.natAbs_ofNat]
  apply round_fin
  · positivity
  · by_cases hc : bits b b ≤ bits a a
    · have e1 : (((bits a a : Int) - 53) - ((bits b b : Int) - 53)).toNat
          = bits a a - bits b b := by omega
      have e2 : (((bits b b : Int) - 53) - ((bits a a : Int) - 53)).toNat = 0 := by omega
      rw [e1, e2, pow_zero, mul_one, mul_assoc a, ← pow_add,
        show 53 - bits a a + (bits a a - bits b b) = 53 - bits b b by omega]
      calc a * 2 ^ (53 - bits b b) < 2 ^ 53 * 2 ^ (53 - bits b b) :=
            Nat.mul_lt_mul_of_pos_right ha53 (by positivity)
        _ ≤ b * 2 ^ 53 * 2 ^ (53 - bits b b) :=
            Nat.mul_le_mul_right _ (Nat.le_mul_of_pos_left _ hb)
        _ = b * 2 ^ (53 - bits b b) * 2 ^ 53 := by ring
    · have e1 : (((bits a a : Int) - 53) - ((bits b b : Int) - 53)).toNat = 0 := by omega
      have e2 : (((bits b b : Int) - 53) - ((bits a a : Int) - 53)).toNat
          = bits b b - bits a a := by omega
      rw [e1, e2, pow_zero, mul_one, mul_assoc b, ← pow_add,
        show 53 - bits b b + (bits b b - bits a a) = 53 - bits a a by omega]
      calc a * 2 ^ (53 - bits a a) < 2 ^ 53 * 2 ^ (53 - bits a a) :=
            Nat.mul_lt_mul_of_pos_right ha53 (by positivity)
        _ ≤ b * 2 ^ 53 * 2 ^ (53 - bits a a) :=
            Nat.mul_le_mul_right _ (Nat.le_mul_of_pos_left _ hb)
        _ = b * 2 ^ (53 - bits a a) * 2 ^ 53 := by ring

end Dbl

/-- Average and pre-root quantity of ten samples `n` in binary64 arithmetic, when `10 * n * n` is
below `2 ^ 53`: all the sums are exact. -/
theorem stats_const_binary64 (n : Nat) (h : 10 * (n * n) < 2 ^ 53) :
    t_avg_us 10 (sum_of (List.replicate 10 (n : Int)) (0 : Dbl)) = (((n : Int)) : Dbl) ∧
    t_var_us 10 (sum2_of (List.replicate 10 (n : Int)) (0 : Dbl)) (((n : Int)) : Dbl) = 0 := by
  rcases Nat.eq_zero_or_pos n with h0 | hn
  · subst h0
    decide
  · have hq : 0 < n * n := Nat.mul_pos hn hn
    have hlin : n ≤ n * n := Nat.le_mul_self n
    have h10 : ((10 : Int) : Dbl) = (((10 : Nat) : Int) : Dbl) := rfl
    have h9 : (((10 : Int) - 1 : Int) : Dbl) = (((9 : Nat) : Int) : Dbl) := rfl
    constructor
    · simp only [t_avg_us, sum_of, List.replicate, List.foldl]
      rw [Dbl.zero_add_cast n hn (by omega)]
      iterate 9 rw [Dbl.cast_add _ _ (by omega) (by omega) (by omega)]
      rw [show n + n + n + n + n + n + n + n + n + n = n * 10 by omega, h10]
      exact Dbl.cast_div n 10 hn (by norm_num) (by omega)
    · simp only [t_var_us, sum2_of, List.replicate, List.foldl]
      rw [Dbl.cast_mul n n hn hn (by omega)]
      generalize n * n = q at hq hlin h
      rw [Dbl.zero_add_cast q hq (by omega)]
      iterate 9 rw [Dbl.cast_add _ _ (by omega) (by omega) (by omega)]
      rw [show q + q + q + q + q + q + q + q + q + q = q * 10 by omega, h10, h9,
        Dbl.cast_mul q 10 hq (by norm_num) (by omega)]
      obtain ⟨m, e, hme⟩ := Dbl.cast_div_fin (q * 10) 9 (by omega) (by norm_num) (by omega)
        (by norm_num)
      rw [hme]
      exact Dbl.sub_self_fin m e

/-! ## The example engines -/

/-- Every trial on the steady engine takes 50000 microseconds. -/
theorem steady_samples :
    ∀ k, k < 12 → samples steady_engine (20 * k) 10 = List.replicate 10 50000 := by
  decide

/-- Mean and deviation of ten samples of 50000 microseconds in binary64 arithmetic. -/
theorem steady_stats :
    t_avg_us 10 (sum_of (List.replicate 10 50000) (0 : Dbl)) / ((1000 : Int) : Dbl)
      = ((50 : Int) : Dbl) ∧
    t_dev_us Dbl.sqrt 10 (sum2_of (List.replicate 10 50000) (0 : Dbl))
        (t_avg_us 10 (sum_of (List.replicate 10 50000) (0 : Dbl))) / ((1000 : Int) : Dbl)
      = 0 := by
  decide

/-- The summary lines of the steady engine in binary64 arithmetic. -/
theorem steady_summaries :
    (List.range 12).map
        (fun (k : Nat) =>
          summary_of Dbl.sqrt 10 (200 * (k : Int)) (samples steady_engine (20 * k) 10))
      = (List.range 12).map
        (fun (k : Nat) => Event.summary 10 (200 * (k : Int)) ((50 : Int) : Dbl) 0) := by
  apply List.map_congr_left
  intro k hk
  rw [steady_samples k (List.mem_range.mp hk), summary_of, steady_stats.1, steady_stats.2]

/-- Every trial on the slow engine takes 54800001 microseconds. -/
theorem slow_samples : ∀ k, k < 12 → samples slow_engine (20 * k) 10 = List.replicate 10 54800001 := by
  decide

/-- Ten samples of 54800001 microseconds in binary64 arithmetic: the pre-root quantity is -0.5. -/
theorem slow_stats :
    t_avg_us 10 (sum_of (List.replicate 10 54800001) (0 : Dbl)) = ((54800001 : Int) : Dbl) ∧
    t_var_us 10 (sum2_of (List.replicate 10 54800001) (0 : Dbl))
        (t_avg_us 10 (sum_of (List.replicate 10 54800001) (0 : Dbl)))
      = Dbl.fin (-4503599627370496) (-53) ∧
    Dbl.sqrt (Dbl.fin (-4503599627370496) (-53)) / ((1000 : Int) : Dbl) = Dbl.nan := by
  decide

/-- The samples of the twelve buckets on the failing engine. -/
theorem failing_samples :
    (List.range 12).map (fun (k : Nat) => samples failing_engine (20 * k) 10) =
      [List.replicate 10 50000,
       [50000, 50000, 50010, 50000, 50000, 50000, 50000, 50000, 50000, 50000],
       List.replicate 10 50000, List.replicate 10 50000, List.replicate 10 50000,
       List.replicate 10 50000, List.replicate 10 50000, List.replicate 10 50000,
       List.replicate 10 50000, List.replicate 10 50000, List.replicate 10 50000,
       List.replicate 10 50000] := by
  decide

/-! ## The command line -/

section cli
variable {α : Type} [Zero α] [Add α] [Sub α] [Mul α] [Div α] [IntCast α]

/-- The option scan reads well-formed pairs and goes on behind them. -/
theorem parse_loop_pairs (stoi : String → Option Int) :
    ∀ (pre : List String) (mp : String) (ngl : Int), option_pairs stoi pre = true →
      ∃ mp2 ngl2, ∀ rest, parse_loop stoi (pre ++ rest) mp ngl = parse_loop stoi rest mp2 ngl2
  | [], mp, ngl, _ => ⟨mp, ngl, fun _ => rfl⟩
  | [_], _, _, h => by simp [option_pairs] at h
  | a :: v :: pre, mp, ngl, h => by
    unfold option_pairs at h
    by_cases h1 : a = "-m"
    · rw [if_pos h1] at h
      obtain ⟨mp2, ngl2, ih⟩ := parse_loop_pairs stoi pre v ngl h
      exact ⟨mp2, ngl2, fun rest => by simp [parse_loop, h1, ih]⟩
    · rw [if_neg h1] at h
      by_cases h2 : a = "-ngl"
      · rw [if_pos h2, Bool.and_eq_true] at h
        obtain ⟨n, hn⟩ := Option.isSome_iff_exists.mp h.1
        obtain ⟨mp2, ngl2, ih⟩ := parse_loop_pairs stoi pre mp n h.2
        exact ⟨mp2, ngl2, fun rest => by simp [parse_loop, h2, hn, ih]⟩
      · rw [if_neg h2] at h
        exact absurd h (by simp)

/-- Without `-m` the option scan leaves the model path as it was. -/
theorem parse_loop_without_m (stoi : String → Option Int) :
    ∀ (args : List String) (mp : String) (ngl : Int), "-m" ∉ args →
      parse_loop stoi args mp ngl = none ∨ ∃ ngl2, parse_loop stoi args mp ngl = some (mp, ngl2)
  | [], mp, ngl, _ => Or.inr ⟨ngl, rfl⟩
  | [a], mp, ngl, h => by
    have h1 : a ≠ "-m" := fun e => h (by simp [e])
    by_cases h2 : a = "-ngl"
    · left; simp [parse_loop, h2]
    · right; exact ⟨ngl, by simp [parse_loop, h1, h2]⟩
  | a :: v :: rest, mp, ngl, h => by
    have h1 : a ≠ "-m" := fun e => h (by simp [e])
    have hrest : "-m" ∉ rest := fun e => h (by simp [e])
    by_cases h2 : a = "-ngl"
    · cases hv : stoi v with
      | none => left; simp [parse_loop, h2, hv]
      | some n =>
        rcases parse_loop_without_m stoi rest mp n hrest with h3 | ⟨ngl2, h3⟩
        · left; simp [parse_loop, h2, hv, h3]
        · right; exact ⟨ngl2, by simp [parse_loop, h2, hv, h3]⟩
    · right; exact ⟨ngl, by simp [parse_loop, h1, h2]⟩

/-- Without `-ngl` the option scan leaves the layer count as it was. -/
theorem parse_loop_without_ngl (stoi : String → Option Int) :
    ∀ (args : List String) (mp : String) (ngl : Int), "-ngl" ∉ args →
      parse_loop stoi args mp ngl = none ∨ ∃ mp2, parse_loop stoi args mp ngl = some (mp2, ngl)
  | [], mp, ngl, _ => Or.inr ⟨mp, rfl⟩
  | [a], mp, ngl, h => by
    have h2 : a ≠ "-ngl" := fun e => h (by simp [e])
    by_cases h1 : a = "-m"
    · left; simp [parse_loop, h1]
    · right; exact ⟨mp, by simp [parse_loop, h1, h2]⟩
  | a :: v :: rest, mp, ngl, h => by
    have h2 : a ≠ "-ngl" := fun e => h (by simp [e])
    have hrest : "-ngl" ∉ rest := fun e => h (by simp [e])
    by_cases h1 : a = "-m"
    · rcases parse_loop_without_ngl stoi rest v ngl hrest with h3 | ⟨mp2, h3⟩
      · left; simp [parse_loop, h1, h3]
      · right; exact ⟨mp2, by simp [parse_loop, h1, h3]⟩
    · right; exact ⟨mp, by simp [parse_loop, h1, h2]⟩

/-- When the argument block ends with usage, `main` prints it and returns 1. -/
theorem main_usage (sqrt : α → α) (stoi : String → Option Int) (eng : Engine)
    (argv0 : String) (args : List String) (h : parse_args stoi args = Parsed.usage) :
    main sqrt stoi eng argv0 args = usage_run argv0 := by
  simp [main, h, print_usage, State.emit, State.init, usage_run]

/-- When the arguments parse, the first calls are the default parameters and the model load with
the parsed values. -/
theorem main_first_call (sqrt : α → α) (stoi : String → Option Int) (eng : Engine)
    (argv0 : String) (args : List String) (model_path : String) (ngl : Int)
    (h : parse_args stoi args = Parsed.ok model_path ngl) :
    (main sqrt stoi eng argv0 args).state.trace.take 2
      = [Event.model_default_params, Event.load_model model_path ngl] := by
  by_cases hload : eng.load model_path ngl = true
  · by_cases hctx : eng.new_context = true
    · rw [main_reaches_sweep sqrt stoi eng argv0 args model_path ngl h hload hctx]
      rfl
    · simp [main, h, hload, hctx, State.emit, State.init]
  · simp [main, h, hload, State.emit, State.init]

end cli

/-! ## The claims -/

section claims
variable {α : Type} [Zero α] [Add α] [Sub α] [Mul α] [Div α] [IntCast α]

/-- C1: for every bucket of `n ≥ 2` trials, in exact arithmetic the average of line 122 is the
arithmetic mean of the bucket's samples and the deviation of line 123 is the square root of
their unbiased sample variance. -/
theorem C1_mean_and_bessel_deviation (eng : Engine) (p : Int) (n : Int) (s : State ℝ)
    (hn : 2 ≤ n) :
    (samples eng s.n_time n.toNat).length = n.toNat ∧
    t_avg_us n (trial_loop eng p n 0 ⟨s, 0, 0⟩).t_sum_us
      = spec_mean (samples eng s.n_time n.toNat) ∧
    t_dev_us Real.sqrt n (trial_loop eng p n 0 ⟨s, 0, 0⟩).t_sum2_us
        (t_avg_us n (trial_loop eng p n 0 ⟨s, 0, 0⟩).t_sum_us)
      = Real.sqrt (spec_variance (samples eng s.n_time n.toNat)) := by
  have hlen : (samples eng s.n_time n.toNat).length = n.toNat := by simp [samples]
  have hcast : ((samples eng s.n_time n.toNat).length : Int) = n := by
    rw [hlen]; omega
  have h2 : 2 ≤ (samples eng s.n_time n.toNat).length := by rw [hlen]; omega
  have ha := avg_eq_mean (samples eng s.n_time n.toNat)
  have hv := var_eq_variance (samples eng s.n_time n.toNat) h2
  rw [hcast] at ha hv
  refine ⟨hlen, ?_, ?_⟩
  · simpa [trial_loop_eq, trial_iterate] using ha
  · simpa [trial_loop_eq, trial_iterate, t_dev_us] using congrArg Real.sqrt hv

/-- Witness of C1: the samples 10 and 20 have mean 15 and deviation `sqrt 50`. -/
theorem C1_witness_10_20 :
    (2 : Int) ≤ 2 ∧
    t_avg_us 2 (trial_loop two_sample_engine 0 2 0 ⟨(State.init : State ℝ), 0, 0⟩).t_sum_us = 15 ∧
    t_dev_us Real.sqrt 2 (trial_loop two_sample_engine 0 2 0 ⟨(State.init : State ℝ), 0, 0⟩).t_sum2_us
        (t_avg_us 2 (trial_loop two_sample_engine 0 2 0 ⟨(State.init : State ℝ), 0, 0⟩).t_sum_us)
      = Real.sqrt 50 := by
  have h := C1_mean_and_bessel_deviation two_sample_engine 0 2 State.init (by norm_num)
  have hs : samples two_sample_engine (State.init : State ℝ).n_time (2 : Int).toNat = [10, 20] := by
    decide
  rw [hs] at h
  refine ⟨by norm_num, ?_, ?_⟩
  · rw [h.2.1]; norm_num [spec_mean]
  · rw [h.2.2]; norm_num [spec_variance, spec_mean]

/-- C2 as amended: the status returned by `llama_decode` is not inspected. Whatever the decode
calls return, a run that reaches the sweep makes all 121 decode calls, adds the elapsed time of
every trial to the sums, emits the 12 summary lines and returns 0. -/
theorem C2_decode_status_ignored (sqrt : α → α) (stoi : String → Option Int)
    (eng : Engine) (argv0 : String) (args : List String) (model_path : String) (ngl : Int)
    (hparse : parse_args stoi args = Parsed.ok model_path ngl)
    (hload : eng.load model_path ngl = true) (hctx : eng.new_context = true) :
    (main sqrt stoi eng argv0 args).status = 0 ∧
    ((main sqrt stoi eng argv0 args).state.trace.map Event.kind).count Kind.decode = 121 ∧
    (main sqrt stoi eng argv0 args).state.n_decode = 121 ∧
    summaries (main sqrt stoi eng argv0 args).state.trace =
      (List.range 12).map
        (fun (k : Nat) => summary_of sqrt 10 (200 * (k : Int)) (samples eng (20 * k) 10)) := by
  rw [main_reaches_sweep sqrt stoi eng argv0 args model_path ngl hparse hload hctx]
  refine ⟨rfl, ?_, rfl, full_trace_summaries sqrt eng model_path ngl⟩
  simp only [full_trace_kinds]
  exact full_kinds_warm_up.2.1

/-- Witness of C2 as amended, on the engine whose decode call 13 fails. -/
theorem C2_witness_failing_engine :
    parse_args std_stoi ["-m", "model.gguf"] = Parsed.ok "model.gguf" 99 ∧
    failing_engine.load "model.gguf" 99 = true ∧ failing_engine.new_context = true ∧
    failing_engine.decode 13 ≠ 0 ∧
    (main Dbl.sqrt std_stoi failing_engine "idle" ["-m", "model.gguf"]).status = 0 ∧
    ((main Dbl.sqrt std_stoi failing_engine "idle" ["-m", "model.gguf"]).state.trace.map
      Event.kind).count Kind.decode = 121 ∧
    (main Dbl.sqrt std_stoi failing_engine "idle" ["-m", "model.gguf"]).state.n_decode = 121 := by
  have h := C2_decode_status_ignored Dbl.sqrt std_stoi failing_engine "idle"
    ["-m", "model.gguf"] "model.gguf" 99 (by decide) rfl rfl
  exact ⟨by decide, rfl, rfl, by decide, h.1, h.2.1, h.2.2.1⟩

/-- Counterexample to C2: decode call 13 fails with status -1, yet the run makes all 121 decode
calls, returns 0 and writes twelve summary lines; the second reads a mean of 50.001 ms, which
includes the 50.01 ms of the failed call. -/
theorem C2_counterexample_failed_decode :
    failing_engine.decode 13 = -1 ∧
    (main Real.sqrt std_stoi failing_engine "idle" ["-m", "model.gguf"]).status = 0 ∧
    (main Real.sqrt std_stoi failing_engine "idle" ["-m", "model.gguf"]).state.n_decode = 121 ∧
    (summaries (main Real.sqrt std_stoi failing_engine "idle"
        ["-m", "model.gguf"]).state.trace).map Event.avg_ms =
      [some 50, some 50.001, some 50, some 50, some 50, some 50, some 50, some 50, some 50,
       some 50, some 50, some 50] := by
  rw [main_reaches_sweep Real.sqrt std_stoi failing_engine "idle" ["-m", "model.gguf"]
      "model.gguf" 99 (by decide) rfl rfl]
  refine ⟨rfl, rfl, rfl, ?_⟩
  rw [full_trace_summaries]
  have h := failing_samples
  simp only [List.range_succ, List.range_zero, List.nil_append, List.map_cons, List.map_nil,
    List.cons_append, List.cons.injEq, and_true] at h
  obtain ⟨h0, h1, h2, h3, h4, h5, h6, h7, h8, h9, h10, h11⟩ := h
  simp only [List.range_succ, List.range_zero, List.nil_append, List.map_cons, List.map_nil,
    List.cons_append, h0, h1, h2, h3, h4, h5, h6, h7, h8, h9, h10, h11, summary_of,
    Event.avg_ms, t_avg_us, sum_of_real, List.map_replicate, List.sum_replicate]
  norm_num

/-- C3: in a run that reaches the sweep there are 121 decode calls, and the calls that follow
each of them, up to the next decode call or up to the teardown, hold exactly one cache reset
(clear, update, synchronize in a row), one `llama_kv_cache_clear` and one
`llama_kv_cache_update`. -/
theorem C3_one_reset_after_every_decode (sqrt : α → α) (stoi : String → Option Int)
    (eng : Engine) (argv0 : String) (args : List String) (model_path : String) (ngl : Int)
    (hparse : parse_args stoi args = Parsed.ok model_path ngl)
    (hload : eng.load model_path ngl = true) (hctx : eng.new_context = true) :
    (after_decodes ((main sqrt stoi eng argv0 args).state.trace.map Event.kind)).length = 121 ∧
    ∀ seg ∈ after_decodes ((main sqrt stoi eng argv0 args).state.trace.map Event.kind),
      count_resets seg = 1 ∧ seg.count Kind.kv_cache_clear = 1
        ∧ seg.count Kind.kv_cache_update = 1 := by
  rw [main_reaches_sweep sqrt stoi eng argv0 args model_path ngl hparse hload hctx]
  simp only [full_trace_kinds]
  exact full_kinds_resets

/-- Witness of C3 on the steady engine. -/
theorem C3_witness_steady_engine :
    parse_args std_stoi ["-m", "model.gguf"] = Parsed.ok "model.gguf" 99 ∧
    steady_engine.load "model.gguf" 99 = true ∧ steady_engine.new_context = true ∧
    (after_decodes ((main Dbl.sqrt std_stoi steady_engine "idle"
      ["-m", "model.gguf"]).state.trace.map Event.kind)).length = 121 ∧
    ∀ seg ∈ after_decodes ((main Dbl.sqrt std_stoi steady_engine "idle"
      ["-m", "model.gguf"]).state.trace.map Event.kind),
      count_resets seg = 1 ∧ seg.count Kind.kv_cache_clear = 1
        ∧ seg.count Kind.kv_cache_update = 1 := by
  have h := C3_one_reset_after_every_decode Dbl.sqrt std_stoi steady_engine "idle"
    ["-m", "model.gguf"] "model.gguf" 99 (by decide) rfl rfl
  exact ⟨by decide, rfl, rfl, h.1, h.2⟩

/-- C4: one trial appends, in this order, the sleep, the start read, one decode, one
synchronize, the end read and the cache reset, and adds `t_end_us - t_start_us` and its square
to the sums; in a run that reaches the sweep the calls between a start read and its end read
are a decode and a synchronize for each of the 120 trials, and the last library call before
each of the 240 clock reads is a synchronize. -/
theorem C4_measured_interval (sqrt : α → α) (stoi : String → Option Int)
    (eng : Engine) (argv0 : String) (args : List String) (model_path : String) (ngl : Int)
    (hparse : parse_args stoi args = Parsed.ok model_path ngl)
    (hload : eng.load model_path ngl = true) (hctx : eng.new_context = true) :
    (∀ (p : Int) (a : Acc α),
      (trial eng p a).state.trace = a.state.trace ++
        [Event.sleep_ms p,
         Event.time_us (eng.time_us a.state.n_time),
         Event.decode (eng.decode a.state.n_decode),
         Event.synchronize,
         Event.time_us (eng.time_us (a.state.n_time + 1)),
         Event.kv_cache_clear, Event.kv_cache_update, Event.synchronize] ∧
      (trial eng p a).t_sum_us = a.t_sum_us
        + ((eng.time_us (a.state.n_time + 1) - eng.time_us a.state.n_time : Int) : α) ∧
      (trial eng p a).t_sum2_us = a.t_sum2_us
        + ((eng.time_us (a.state.n_time + 1) - eng.time_us a.state.n_time : Int) : α)
          * ((eng.time_us (a.state.n_time + 1) - eng.time_us a.state.n_time : Int) : α)) ∧
    timed_windows ((main sqrt stoi eng argv0 args).state.trace.map Event.kind) none
      = List.replicate 120 [Kind.decode, Kind.synchronize] ∧
    last_call_before_reads ((main sqrt stoi eng argv0 args).state.trace.map Event.kind) none
      = List.replicate 240 (some Kind.synchronize) := by
  refine ⟨fun p a => ?_, ?_, ?_⟩
  · rw [trial_eq]
    exact ⟨rfl, rfl, rfl⟩
  · rw [main_reaches_sweep sqrt stoi eng argv0 args model_path ngl hparse hload hctx]
    simp only [full_trace_kinds]
    exact full_kinds_windows
  · rw [main_reaches_sweep sqrt stoi eng argv0 args model_path ngl hparse hload hctx]
    simp only [full_trace_kinds]
    exact full_kinds_last_calls

/-- Witness of C4 on the steady engine: the first trial records 50000 microseconds. -/
theorem C4_witness_steady_engine :
    parse_args std_stoi ["-m", "model.gguf"] = Parsed.ok "model.gguf" 99 ∧
    steady_engine.load "model.gguf" 99 = true ∧ steady_engine.new_context = true ∧
    (trial steady_engine 0 ⟨(State.init : State Dbl), 0, 0⟩).t_sum_us
      = 0 + ((steady_engine.time_us (0 + 1) - steady_engine.time_us 0 : Int) : Dbl) ∧
    steady_engine.time_us (0 + 1) - steady_engine.time_us 0 = 50000 ∧
    timed_windows ((main Dbl.sqrt std_stoi steady_engine "idle"
      ["-m", "model.gguf"]).state.trace.map Event.kind) none
      = List.replicate 120 [Kind.decode, Kind.synchronize] ∧
    last_call_before_reads ((main Dbl.sqrt std_stoi steady_engine "idle"
      ["-m", "model.gguf"]).state.trace.map Event.kind) none
      = List.replicate 240 (some Kind.synchronize) := by
  have h := C4_measured_interval Dbl.sqrt std_stoi steady_engine "idle"
    ["-m", "model.gguf"] "model.gguf" 99 (by decide) rfl rfl
  exact ⟨by decide, rfl, rfl, (h.1 0 ⟨State.init, 0, 0⟩).2.1, by decide, h.2.1, h.2.2⟩

/-- C5: a run that reaches the sweep makes exactly the calls of `full_trace` and returns 0; its
summary lines are, in this order, one per pause 0, 200, ..., 2200 ms, each with 10 iterations
and each computed from sums that start at zero and run over the 10 samples of the trials of
that pause (clock reads `20 k` to `20 k + 19` for the k-th pause). -/
theorem C5_one_summary_per_duration (sqrt : α → α) (stoi : String → Option Int) (eng : Engine)
    (argv0 : String) (args : List String) (model_path : String) (ngl : Int)
    (hparse : parse_args stoi args = Parsed.ok model_path ngl)
    (hload : eng.load model_path ngl = true) (hctx : eng.new_context = true) :
    (main sqrt stoi eng argv0 args).status = 0 ∧
    (main sqrt stoi eng argv0 args).state.trace = full_trace sqrt eng model_path ngl ∧
    summaries (main sqrt stoi eng argv0 args).state.trace =
      (List.range 12).map
        (fun (k : Nat) => summary_of sqrt 10 (200 * (k : Int)) (samples eng (20 * k) 10)) ∧
    (summaries (main sqrt stoi eng argv0 args).state.trace).map Event.iters_pause =
      [some (10, 0), some (10, 200), some (10, 400), some (10, 600), some (10, 800),
       some (10, 1000), some (10, 1200), some (10, 1400), some (10, 1600), some (10, 1800),
       some (10, 2000), some (10, 2200)] := by
  rw [main_reaches_sweep sqrt stoi eng argv0 args model_path ngl hparse hload hctx]
  exact ⟨rfl, rfl, full_trace_summaries sqrt eng model_path ngl,
    full_trace_iters_pause sqrt eng model_path ngl⟩

/-- Witness of C5 in binary64 arithmetic: on the steady engine the twelve summary lines read
10 iterations, pauses 0 to 2200 ms, mean 50 ms, deviation 0. -/
theorem C5_witness_steady_engine :
    parse_args std_stoi ["-m", "model.gguf"] = Parsed.ok "model.gguf" 99 ∧
    steady_engine.load "model.gguf" 99 = true ∧ steady_engine.new_context = true ∧
    (main Dbl.sqrt std_stoi steady_engine "idle" ["-m", "model.gguf"]).status = 0 ∧
    summaries (main Dbl.sqrt std_stoi steady_engine "idle" ["-m", "model.gguf"]).state.trace =
      (List.range 12).map
        (fun (k : Nat) => Event.summary 10 (200 * (k : Int)) ((50 : Int) : Dbl) 0) := by
  have h := C5_one_summary_per_duration Dbl.sqrt std_stoi steady_engine "idle"
    ["-m", "model.gguf"] "model.gguf" 99 (by decide) rfl rfl
  exact ⟨by decide, rfl, rfl, h.1, h.2.2.1.trans steady_summaries⟩

/-- C7 as amended: in exact arithmetic, for every bucket of `n ≥ 2` trials the argument of
`sqrt` in line 123 is the unbiased sample variance of the bucket's samples and is not
negative, and the deviation is the square root of that argument, taken as it is (no clamp),
and is not negative. -/
theorem C7_radicand_nonneg_exact (eng : Engine) (p : Int) (n : Int) (s : State ℝ)
    (hn : 2 ≤ n) :
    t_var_us n (trial_loop eng p n 0 ⟨s, 0, 0⟩).t_sum2_us
        (t_avg_us n (trial_loop eng p n 0 ⟨s, 0, 0⟩).t_sum_us)
      = spec_variance (samples eng s.n_time n.toNat) ∧
    0 ≤ t_var_us n (trial_loop eng p n 0 ⟨s, 0, 0⟩).t_sum2_us
        (t_avg_us n (trial_loop eng p n 0 ⟨s, 0, 0⟩).t_sum_us) ∧
    t_dev_us Real.sqrt n (trial_loop eng p n 0 ⟨s, 0, 0⟩).t_sum2_us
        (t_avg_us n (trial_loop eng p n 0 ⟨s, 0, 0⟩).t_sum_us)
      = Real.sqrt (t_var_us n (trial_loop eng p n 0 ⟨s, 0, 0⟩).t_sum2_us
        (t_avg_us n (trial_loop eng p n 0 ⟨s, 0, 0⟩).t_sum_us)) ∧
    0 ≤ t_dev_us Real.sqrt n (trial_loop eng p n 0 ⟨s, 0, 0⟩).t_sum2_us
        (t_avg_us n (trial_loop eng p n 0 ⟨s, 0, 0⟩).t_sum_us) := by
  have hlen : (samples eng s.n_time n.toNat).length = n.toNat := by simp [samples]
  have hcast : ((samples eng s.n_time n.toNat).length : Int) = n := by
    rw [hlen]; omega
  have h2 : 2 ≤ (samples eng s.n_time n.toNat).length := by rw [hlen]; omega
  have hv := var_eq_variance (samples eng s.n_time n.toNat) h2
  rw [hcast] at hv
  have hv2 : t_var_us n (trial_loop eng p n 0 ⟨s, 0, 0⟩).t_sum2_us
        (t_avg_us n (trial_loop eng p n 0 ⟨s, 0, 0⟩).t_sum_us)
      = spec_variance (samples eng s.n_time n.toNat) := by
    simpa [trial_loop_eq, trial_iterate] using hv
  refine ⟨hv2, ?_, rfl, Real.sqrt_nonneg _⟩
  rw [hv2]
  exact variance_nonneg _ h2

/-- Witness of C7 as amended: for the samples 10 and 20 the argument of `sqrt` is 50. -/
theorem C7_witness_10_20 :
    (2 : Int) ≤ 2 ∧
    t_var_us 2 (trial_loop two_sample_engine 0 2 0 ⟨(State.init : State ℝ), 0, 0⟩).t_sum2_us
        (t_avg_us 2 (trial_loop two_sample_engine 0 2 0 ⟨(State.init : State ℝ), 0, 0⟩).t_sum_us)
      = 50 ∧
    0 ≤ t_dev_us Real.sqrt 2
        (trial_loop two_sample_engine 0 2 0 ⟨(State.init : State ℝ), 0, 0⟩).t_sum2_us
        (t_avg_us 2 (trial_loop two_sample_engine 0 2 0 ⟨(State.init : State ℝ), 0, 0⟩).t_sum_us) := by
  have h := C7_radicand_nonneg_exact two_sample_engine 0 2 State.init (by norm_num)
  have hs : samples two_sample_engine (State.init : State ℝ).n_time (2 : Int).toNat = [10, 20] := by
    decide
  rw [hs] at h
  refine ⟨by norm_num, ?_, h.2.2.2⟩
  rw [h.1]; norm_num [spec_variance, spec_mean]

/-- Counterexample to C7 in binary64 arithmetic: when every trial takes 54800001 microseconds the
argument of `sqrt` in line 123 is -0.5, it is not clamped, and every summary line reports NaN as
deviation. -/
theorem C7_counterexample_negative_radicand :
    samples slow_engine 0 10 = List.replicate 10 54800001 ∧
    Dbl.toRat? (t_var_us 10 (sum2_of (samples slow_engine 0 10) (0 : Dbl))
        (t_avg_us 10 (sum_of (samples slow_engine 0 10) (0 : Dbl)))) = some (-1 / 2) ∧
    ((summaries (main Dbl.sqrt std_stoi slow_engine "idle"
        ["-m", "model.gguf"]).state.trace).map Event.dev_ms)
      = List.replicate 12 (some Dbl.nan) := by
  have h0 := slow_samples 0 (by decide)
  rw [show 20 * 0 = 0 from rfl] at h0
  refine ⟨h0, ?_, ?_⟩
  · rw [h0, slow_stats.2.1]
    norm_num [Dbl.toRat?]
  · rw [main_reaches_sweep Dbl.sqrt std_stoi slow_engine "idle" ["-m", "model.gguf"]
      "model.gguf" 99 (by decide) rfl rfl, full_trace_summaries, List.map_map]
    rw [List.eq_replicate_iff]
    refine ⟨by simp, ?_⟩
    intro b hb
    obtain ⟨k, hk, rfl⟩ := List.mem_map.mp hb
    rw [Function.comp_apply, summary_of, slow_samples k (List.mem_range.mp hk)]
    simp only [Event.dev_ms, t_dev_us]
    rw [slow_stats.2.1, slow_stats.2.2]

/-- C9: the warm-up makes one decode call and one cache reset and reads no clock. In a run that
reaches the sweep, what precedes the first sleep (the start of the first timed trial) is the
setup followed by that one decode and its reset: one warm-up decode, no sleep and no clock read
before or around it. The first trial sleeps 0 ms and makes the first clock read, and every
summary line is computed from sums that start at zero and run over samples read after the
warm-up. -/
theorem C9_warm_up_once_and_discarded (sqrt : α → α) (stoi : String → Option Int)
    (eng : Engine) (argv0 : String) (args : List String) (model_path : String) (ngl : Int)
    (hparse : parse_args stoi args = Parsed.ok model_path ngl)
    (hload : eng.load model_path ngl = true) (hctx : eng.new_context = true) :
    (∀ s : State α, (warm_up eng s).n_decode = s.n_decode + 1 ∧ (warm_up eng s).n_time = s.n_time ∧
      (warm_up eng s).trace = s.trace ++ [Event.decode (eng.decode s.n_decode),
        Event.kv_cache_clear, Event.kv_cache_update, Event.synchronize]) ∧
    ((main sqrt stoi eng argv0 args).state.trace.map Event.kind).takeWhile
        (fun k => decide (k ≠ Kind.sleep_ms)) =
      [Kind.model_default_params, Kind.load_model, Kind.token_bos,
       Kind.context_default_params, Kind.new_context, Kind.batch_get_one,
       Kind.decode, Kind.kv_cache_clear, Kind.kv_cache_update, Kind.synchronize] ∧
    (main sqrt stoi eng argv0 args).state.trace.take 12 =
      [Event.model_default_params, Event.load_model model_path ngl, Event.token_bos,
       Event.context_default_params, Event.new_context 512 512 false,
       Event.batch_get_one 1, Event.decode (eng.decode 0), Event.kv_cache_clear,
       Event.kv_cache_update, Event.synchronize, Event.sleep_ms 0,
       Event.time_us (eng.time_us 0)] ∧
    summaries (main sqrt stoi eng argv0 args).state.trace =
      (List.range 12).map
        (fun (k : Nat) => summary_of sqrt 10 (200 * (k : Int)) (samples eng (20 * k) 10)) := by
  rw [main_reaches_sweep sqrt stoi eng argv0 args model_path ngl hparse hload hctx]
  refine ⟨fun s => ?_, ?_, full_trace_start sqrt eng model_path ngl,
    full_trace_summaries sqrt eng model_path ngl⟩
  · simp [warm_up, llama_decode, State.emit]
  · simp only [full_trace_kinds]
    exact full_kinds_warm_up.1

/-- Witness of C9 on the steady engine. -/
theorem C9_witness_steady_engine :
    parse_args std_stoi ["-m", "model.gguf"] = Parsed.ok "model.gguf" 99 ∧
    steady_engine.load "model.gguf" 99 = true ∧ steady_engine.new_context = true ∧
    ((main Dbl.sqrt std_stoi steady_engine "idle" ["-m", "model.gguf"]).state.trace.map
      Event.kind).takeWhile (fun k => decide (k ≠ Kind.sleep_ms)) =
      [Kind.model_default_params, Kind.load_model, Kind.token_bos,
       Kind.context_default_params, Kind.new_context, Kind.batch_get_one,
       Kind.decode, Kind.kv_cache_clear, Kind.kv_cache_update, Kind.synchronize] ∧
    (main Dbl.sqrt std_stoi steady_engine "idle" ["-m", "model.gguf"]).state.trace.take 12 =
      [Event.model_default_params, Event.load_model "model.gguf" 99, Event.token_bos,
       Event.context_default_params, Event.new_context 512 512 false,
       Event.batch_get_one 1, Event.decode 0, Event.kv_cache_clear,
       Event.kv_cache_update, Event.synchronize, Event.sleep_ms 0, Event.time_us 0] := by
  have h := C9_warm_up_once_and_discarded Dbl.sqrt std_stoi steady_engine "idle"
    ["-m", "model.gguf"] "model.gguf" 99 (by decide) rfl rfl
  exact ⟨by decide, rfl, rfl, h.2.1, h.2.2.1⟩

/-- C10 as amended: `main` prints the usage text and returns 1 without any call to the library
when no argument is `-m`, when the option scan ends with an empty model path, when the option
scan (which reads `-m value` and `-ngl value` pairs from `argv[1]` on and stops at the first
argument that is neither `-m` nor `-ngl`) reaches `-m` or `-ngl` as the last argument, or
reaches `-ngl` followed by a value that `std::stoi` rejects. When parsing succeeds and no
argument is `-ngl`, the model is loaded with 99 layers. -/
theorem C10_usage_on_bad_arguments (sqrt : α → α) (stoi : String → Option Int) (eng : Engine)
    (argv0 : String) :
    (∀ args, "-m" ∉ args → main sqrt stoi eng argv0 args = usage_run argv0) ∧
    (∀ args ngl, parse_loop stoi args "" 99 = some ("", ngl) →
      main sqrt stoi eng argv0 args = usage_run argv0) ∧
    (∀ pre, option_pairs stoi pre = true →
      main sqrt stoi eng argv0 (pre ++ ["-m"]) = usage_run argv0 ∧
      main sqrt stoi eng argv0 (pre ++ ["-ngl"]) = usage_run argv0) ∧
    (∀ pre v rest, option_pairs stoi pre = true → stoi v = none →
      main sqrt stoi eng argv0 (pre ++ "-ngl" :: v :: rest) = usage_run argv0) ∧
    (∀ args model_path ngl, parse_args stoi args = Parsed.ok model_path ngl → "-ngl" ∉ args →
      ngl = 99 ∧
      (main sqrt stoi eng argv0 args).state.trace.take 2
        = [Event.model_default_params, Event.load_model model_path 99])
    := by
  refine ⟨?_, ?_, ?_, ?_, ?_⟩
  · intro args h
    apply main_usage
    rcases parse_loop_without_m stoi args "" 99 h with h1 | ⟨ngl2, h1⟩ <;> simp [parse_args, h1]
  · intro args ngl h
    apply main_usage
    simp [parse_args, h]
  · intro pre h
    obtain ⟨mp2, ngl2, hp⟩ := parse_loop_pairs stoi pre "" 99 h
    constructor <;> apply main_usage <;> simp [parse_args, hp, parse_loop]
  · intro pre v rest h hv
    obtain ⟨mp2, ngl2, hp⟩ := parse_loop_pairs stoi pre "" 99 h
    apply main_usage
    simp [parse_args, hp, parse_loop, hv]
  · intro args model_path ngl h hngl
    have hn : ngl = 99 := by
      rcases parse_loop_without_ngl stoi args "" 99 hngl with h1 | ⟨mp2, h1⟩
      · simp [parse_args, h1] at h
      · simp only [parse_args, h1] at h
        split_ifs at h
        injection h with _ h2
        exact h2.symm
    subst hn
    exact ⟨rfl, main_first_call sqrt stoi eng argv0 args model_path 99 h⟩

/-- Witness of C10 as amended. -/
theorem C10_witness :
    (main Dbl.sqrt std_stoi steady_engine "idle" ["-ngl", "33"] = usage_run "idle") ∧
    (main Dbl.sqrt std_stoi steady_engine "idle" ["-m", ""] = usage_run "idle") ∧
    (main Dbl.sqrt std_stoi steady_engine "idle" ["-ngl", "33", "-m"] = usage_run "idle") ∧
    (main Dbl.sqrt std_stoi steady_engine "idle" ["-m", "model.gguf", "-ngl"]
      = usage_run "idle") ∧
    (main Dbl.sqrt std_stoi steady_engine "idle" ["-m", "model.gguf", "-ngl", "many"]
      = usage_run "idle") ∧
    (main Dbl.sqrt std_stoi steady_engine "idle" ["-m", "model.gguf"]).state.trace.take 2
      = [Event.model_default_params, Event.load_model "model.gguf" 99] := by
  have h := C10_usage_on_bad_arguments Dbl.sqrt std_stoi steady_engine "idle"
  refine ⟨h.1 _ (by decide), h.2.1 ["-m", ""] 99 (by decide), ?_, ?_, ?_, ?_⟩
  · exact (h.2.2.1 ["-ngl", "33"] (by decide)).1
  · exact (h.2.2.1 ["-m", "model.gguf"] (by decide)).2
  · exact h.2.2.2.1 ["-m", "model.gguf"] "many" [] (by decide) (by decide)
  · exact (h.2.2.2.2 ["-m", "model.gguf"] "model.gguf" 99 (by decide) (by decide)).2

/-- Counterexample to C10: in `idle -m model.gguf hello -ngl` the last argument is `-ngl` with no
value after it, yet parsing succeeds, the model is loaded with 99 layers and the run returns 0. -/
theorem C10_counterexample_option_after_prompt :
    ["-m", "model.gguf", "hello", "-ngl"].getLast? = some "-ngl" ∧
    parse_args std_stoi ["-m", "model.gguf", "hello", "-ngl"] = Parsed.ok "model.gguf" 99 ∧
    (main Dbl.sqrt std_stoi steady_engine "idle"
        ["-m", "model.gguf", "hello", "-ngl"]).state.trace.take 2
      = [Event.model_default_params, Event.load_model "model.gguf" 99] ∧
    (main Dbl.sqrt std_stoi steady_engine "idle" ["-m", "model.gguf", "hello", "-ngl"]).status
      = 0 ∧
    main Dbl.sqrt std_stoi steady_engine "idle" ["-m", "model.gguf", "hello", "-ngl"]
      ≠ usage_run "idle" := by
  have hrun := main_reaches_sweep Dbl.sqrt std_stoi steady_engine "idle"
    ["-m", "model.gguf", "hello", "-ngl"] "model.gguf" 99 (by decide) rfl rfl
  refine ⟨rfl, by decide, ?_, ?_, ?_⟩
  · exact main_first_call Dbl.sqrt std_stoi steady_engine "idle" _ "model.gguf" 99 (by decide)
  · rw [hrun]
  · rw [hrun]
    intro h
    have hstatus := congrArg Outcome.status h
    simp [usage_run] at hstatus

end claims

end Idle
